import Mathlib

/-!
# Verification of the Yongu client-manager persistence and interchange layer

Shallow embedding of the persistence layer of the repository
(`src/services/storage.ts`, plus the two state-updating handlers
`handleAddLog` in the client modal and `handleSaveClient` in the
application state controller).

Modelling conventions:
* JavaScript strings are modelled as `Str := List Char`.
* JavaScript `Date` values are modelled as milliseconds since the epoch
  (`Nat`).  The two platform string encodings used by the code,
  `Date.prototype.toISOString` and `Date.prototype.toLocaleDateString`,
  are modelled as injective renderings of, respectively, the full
  millisecond timestamp and the day index (`ms / 86400000`); `new Date(s)`
  is modelled as the partial inverse of those two renderings, returning
  `none` (the JavaScript Invalid Date) on any other text.  This captures
  exactly what the claims need: the locale date string determines the day
  and only the day, parsing it back yields midnight of that day, and
  calling `toISOString` on an unparsable text throws a `RangeError`.
* `crypto.randomUUID` is modelled as a deterministic supply of fresh
  identifiers indexed by how many identifiers were minted before.
* Browser `localStorage` is modelled as an association list of slots plus
  a flag saying whether the next write is rejected (quota exceeded).
* `JSON.parse` / `JSON.stringify` are platform builtins; they are modelled
  by a small total JSON parser / serializer over a `JsValue` tree
  (integers only, basic escapes).  The claims touching them depend only on
  whether parsing succeeds, never on number formats.
-/

/-- JavaScript strings, modelled as lists of characters. -/
abbrev Str := List Char

/-- Convert a Lean string literal to the model type. -/
def strOf (s : String) : Str := s.data

/-- ASCII whitespace recognised by the model of `String.prototype.trim`. -/
def isWsChar (c : Char) : Bool := c = ' ' || c = '\t' || c = '\r' || c = '\n'

/-- Model of `String.prototype.trim` (restricted to ASCII whitespace). -/
def trimStr (s : Str) : Str :=
  ((s.dropWhile isWsChar).reverse.dropWhile isWsChar).reverse

/-- Model of `String.prototype.toLowerCase` (ASCII). -/
def lowerStr (s : Str) : Str := s.map Char.toLower

/-- Model of `String.prototype.includes`: `containsSub hay needle` is true
when `needle` occurs contiguously inside `hay`. -/
def containsSub (hay needle : Str) : Bool :=
  match hay with
  | [] => needle.isEmpty
  | _ :: t => needle.isPrefixOf hay || containsSub t needle

/-- Prepend a character to the first piece of a split result. -/
def consHead (c : Char) : List Str → List Str
  | [] => [[c]]
  | l :: ls => (c :: l) :: ls

/-- Model of `String.prototype.split(sep)` for a single-character separator. -/
def splitOnChar (sep : Char) : Str → List Str
  | [] => [[]]
  | c :: rest =>
    if c = sep then [] :: splitOnChar sep rest
    else consHead c (splitOnChar sep rest)

/-- Model of `text.split(/\r?\n/)` (storage.ts line 184): split on a
newline optionally preceded by a carriage return; a lone carriage return
is kept in the piece. -/
def splitLines : Str → List Str
  | [] => [[]]
  | '\r' :: '\n' :: rest => [] :: splitLines rest
  | '\n' :: rest => [] :: splitLines rest
  | c :: rest => consHead c (splitLines rest)

/-- Join a list of pieces with a separator string (used to model
`Array.prototype.join`). -/
def joinWith (sep : Str) : List Str → Str
  | [] => []
  | [l] => l
  | l :: ls => l ++ sep ++ joinWith sep ls

/-! ## Decimal rendering of natural numbers (for the date-string model) -/

/-- Character for one decimal digit. -/
def digitChar (d : Nat) : Char :=
  Char.ofNat (48 + d)

/-- Decimal digits of `n`, most significant first (fuel-based so that the
kernel can evaluate it). -/
def natDigitsAux : Nat → Nat → List Nat
  | 0, _ => []
  | f + 1, n => if n < 10 then [n] else natDigitsAux f (n / 10) ++ [n % 10]

def natDigits (n : Nat) : List Nat := natDigitsAux (n + 1) n

/-- Decimal rendering of a natural number. -/
def natToStr (n : Nat) : Str := (natDigits n).map digitChar

/-- Numeric value of a digit character, if it is one. -/
def charDigit (c : Char) : Option Nat :=
  if 48 ≤ c.toNat ∧ c.toNat ≤ 57 then some (c.toNat - 48) else none

/-- Parse a nonempty all-digit string back to a natural number. -/
def parseNat (s : Str) : Option Nat :=
  match s with
  | [] => none
  | _ =>
    s.foldl (fun acc c =>
      match acc, charDigit c with
      | some a, some d => some (a * 10 + d)
      | _, _ => none) (some 0)

/-! ## The JavaScript Date model -/

def msPerDay : Nat := 86400000

/-- Model of `Date.prototype.toISOString` on a valid timestamp: an
injective rendering of the millisecond count. -/
def isoOf (ms : Nat) : Str := strOf "iso:" ++ natToStr ms

/-- Model of `Date.prototype.toLocaleDateString`: an injective rendering
of the day index only (time of day is dropped). -/
def localeDateOf (ms : Nat) : Str := strOf "date:" ++ natToStr (ms / msPerDay)

/-- Model of `new Date(text)`: recover the timestamp from either rendering;
any other text gives the Invalid Date (`none`).  Parsing a locale date
string yields midnight of that day. -/
def jsParseDate (s : Str) : Option Nat :=
  if (strOf "iso:").isPrefixOf s then parseNat (s.drop 4)
  else if (strOf "date:").isPrefixOf s then (parseNat (s.drop 5)).map (· * msPerDay)
  else none

/-- Model of `new Date(a) > new Date(b)`: numeric comparison of the two
timestamps; any comparison involving an Invalid Date (NaN) is false. -/
def jsDateGt (a b : Str) : Bool :=
  match jsParseDate a, jsParseDate b with
  | some x, some y => decide (x > y)
  | _, _ => false

/-- Message of the `RangeError` thrown by `toISOString` on an Invalid Date. -/
def invalidTimeMsg : Str := strOf "RangeError: Invalid time value"

/-! ## JavaScript values and the JSON model -/

/-- Untyped JavaScript values, as far as the persistence layer inspects
them (numbers restricted to integers; `undefined` is distinguished from
`null` because member access on a non-object yields `undefined`). -/
inductive JsValue where
  | undefined : JsValue
  | null : JsValue
  | bool : Bool → JsValue
  | num : Int → JsValue
  | str : Str → JsValue
  | arr : List JsValue → JsValue
  | obj : List (Str × JsValue) → JsValue

/-- JavaScript truthiness: `undefined`, `null`, `false`, `0` and the empty
string are falsy, everything else is truthy. -/
def JsValue.truthy : JsValue → Bool
  | .undefined => false
  | .null => false
  | .bool b => b
  | .num n => n != 0
  | .str s => !s.isEmpty
  | .arr _ => true
  | .obj _ => true

/-- Member access `v.k`: a lookup for objects, `undefined` otherwise.
(The callers in the source only access members after a truthiness check,
so the throwing cases of member access on `null`/`undefined` are never
reached; they are collapsed to `undefined` here.) -/
def JsValue.member (v : JsValue) (k : Str) : JsValue :=
  match v with
  | .obj fields =>
    match fields.lookup k with
    | some w => w
    | none => .undefined
  | _ => .undefined

/-- Model of `Array.isArray`. -/
def JsValue.isArray : JsValue → Bool
  | .arr _ => true
  | _ => false

/-- Elements of an array value (callers only use it after `isArray`). -/
def JsValue.elems : JsValue → List JsValue
  | .arr xs => xs
  | _ => []

/-- Whether a value is object-like (the wording used by the specification
for the profile pass-through condition). -/
def JsValue.objectLike : JsValue → Bool
  | .obj _ => true
  | .arr _ => true
  | _ => false

/-! ## The Document model and the Validator (storage.ts lines 27 to 49) -/

/-- `AppData` as the Validator actually returns it: `clients` is the raw
array taken from the input with no per-element checking, `profile` and
`lastUpdated` are raw values. -/
structure AppData where
  clients : List JsValue
  profile : JsValue
  lastUpdated : JsValue

/-- The zero-value Document produced on structurally invalid input. -/
def zeroAppData (now : Str) : AppData :=
  { clients := [], profile := .null, lastUpdated := .str now }

/-- `validateData` (storage.ts lines 34 to 49).  `now` stands for
`new Date().toISOString()` at the moment of the call. -/
def validateData (now : Str) (data : JsValue) : AppData :=
  if !data.truthy || !(data.member (strOf "clients")).isArray then
    zeroAppData now
  else
    { clients := (data.member (strOf "clients")).elems
      profile :=
        if (data.member (strOf "profile")).truthy then data.member (strOf "profile")
        else .null
      lastUpdated :=
        if (data.member (strOf "lastUpdated")).truthy then data.member (strOf "lastUpdated")
        else .str now }

/-! ## A small JSON codec (model of `JSON.parse` and `JSON.stringify`) -/

/-- Drop leading whitespace. -/
def skipWs (s : Str) : Str := s.dropWhile isWsChar

def isDigitChar (c : Char) : Bool := 48 ≤ c.toNat && c.toNat ≤ 57

/-- Parse a run of leading digits as a natural number. -/
def parseNatLead (s : Str) : Option (Nat × Str) :=
  match parseNat (s.takeWhile isDigitChar) with
  | some n => some (n, s.dropWhile isDigitChar)
  | none => none

/-- Parse the body of a JSON string literal after the opening quote,
handling the basic escapes for a quote and a backslash. -/
def parseJsonStrBody : Str → Option (Str × Str)
  | [] => none
  | '\\' :: c :: rest =>
    match parseJsonStrBody rest with
    | some (tail, r) => some (c :: tail, r)
    | none => none
  | '"' :: rest => some ([], rest)
  | c :: rest =>
    match parseJsonStrBody rest with
    | some (tail, r) => some (c :: tail, r)
    | none => none

mutual

/-- Fuel-based recursive-descent JSON value parser. -/
def parseJsonVal : Nat → Str → Option (JsValue × Str)
  | 0, _ => none
  | Nat.succ fuel, s =>
    let s := skipWs s
    if (strOf "null").isPrefixOf s then some (.null, s.drop 4)
    else if (strOf "true").isPrefixOf s then some (.bool true, s.drop 4)
    else if (strOf "false").isPrefixOf s then some (.bool false, s.drop 5)
    else
      match s with
      | '"' :: rest =>
        match parseJsonStrBody rest with
        | some (body, r) => some (.str body, r)
        | none => none
      | '[' :: rest =>
        if (skipWs rest).headD ' ' = ']' then some (.arr [], (skipWs rest).drop 1)
        else
          match parseJsonItems fuel rest with
          | some (xs, r) => some (.arr xs, r)
          | none => none
      | '-' :: rest =>
        match parseNatLead rest with
        | some (n, r) => some (.num (-(n : Int)), r)
        | none => none
      | c :: _ =>
        if c = Char.ofNat 123 then
          let rest := s.drop 1
          if (skipWs rest).headD ' ' = Char.ofNat 125 then some (.obj [], (skipWs rest).drop 1)
          else
            match parseJsonMembers fuel rest with
            | some (fs, r) => some (.obj fs, r)
            | none => none
        else
          match parseNatLead s with
          | some (n, r) => some (.num (n : Int), r)
          | none => none
      | [] => none

/-- Comma-separated array items up to the closing bracket. -/
def parseJsonItems : Nat → Str → Option (List JsValue × Str)
  | 0, _ => none
  | Nat.succ fuel, s =>
    match parseJsonVal fuel s with
    | some (v, r) =>
      match skipWs r with
      | ',' :: r2 =>
        match parseJsonItems fuel r2 with
        | some (xs, r3) => some (v :: xs, r3)
        | none => none
      | ']' :: r2 => some ([v], r2)
      | _ => none
    | none => none

/-- Comma-separated object members up to the closing brace. -/
def parseJsonMembers : Nat → Str → Option (List (Str × JsValue) × Str)
  | 0, _ => none
  | Nat.succ fuel, s =>
    match skipWs s with
    | '"' :: rest =>
      match parseJsonStrBody rest with
      | some (key, r) =>
        match skipWs r with
        | ':' :: r2 =>
          match parseJsonVal fuel r2 with
          | some (v, r3) =>
            match skipWs r3 with
            | ',' :: r4 =>
              match parseJsonMembers fuel r4 with
              | some (fs, r5) => some ((key, v) :: fs, r5)
              | none => none
            | c :: r4 =>
              if c = Char.ofNat 125 then some ([(key, v)], r4) else none
            | [] => none
          | none => none
        | _ => none
      | none => none
    | _ => none

end

/-- Model of `JSON.parse`: succeeds when the whole text is one JSON value. -/
def jsonParse (s : Str) : Except Str JsValue :=
  match parseJsonVal (s.length + 1) s with
  | some (v, rest) =>
    if skipWs rest = [] then .ok v else .error (strOf "SyntaxError: Unexpected token")
  | none => .error (strOf "SyntaxError: Unexpected end of JSON input")

/-- Escape quotes and backslashes for serialization. -/
def escapeJson (s : Str) : Str :=
  s.flatMap fun c => if c = '"' || c = '\\' then ['\\', c] else [c]

mutual

/-- Model of `JSON.stringify` (compact form; the pretty-printed two-space
variant used by the File Backend differs only in whitespace, which no
claim observes). -/
def jsonStringify : JsValue → Str
  | .undefined => strOf "null"
  | .null => strOf "null"
  | .bool true => strOf "true"
  | .bool false => strOf "false"
  | .num n => if n < 0 then '-' :: natToStr n.natAbs else natToStr n.natAbs
  | .str s => '"' :: escapeJson s ++ ['"']
  | .arr xs => '[' :: jsonStringifyList xs ++ [']']
  | .obj fs => Char.ofNat 123 :: jsonStringifyMembers fs ++ [Char.ofNat 125]

def jsonStringifyList : List JsValue → Str
  | [] => []
  | [x] => jsonStringify x
  | x :: xs => jsonStringify x ++ [','] ++ jsonStringifyList xs

def jsonStringifyMembers : List (Str × JsValue) → Str
  | [] => []
  | [(k, v)] => '"' :: escapeJson k ++ ['"', ':'] ++ jsonStringify v
  | (k, v) :: fs =>
    '"' :: escapeJson k ++ ['"', ':'] ++ jsonStringify v ++ [','] ++ jsonStringifyMembers fs

end

/-- The JSON image of an `AppData` value, as `JSON.stringify` receives it. -/
def appDataJson (d : AppData) : JsValue :=
  .obj [(strOf "clients", .arr d.clients),
        (strOf "profile", d.profile),
        (strOf "lastUpdated", d.lastUpdated)]

/-! ## Local Backend (storage.ts lines 59 to 81) -/

/-- Browser-local key-value storage: the slots, plus whether the store is
at its per-origin capacity so that the next write is rejected. -/
structure LocalStore where
  slots : List (Str × Str)
  quotaFull : Bool
  deriving DecidableEq

def LOCAL_STORAGE_KEY : Str := strOf "yongu_db_v1"

/-- Model of `localStorage.getItem`. -/
def getItem (st : LocalStore) (k : Str) : Option Str := st.slots.lookup k

/-- Model of `localStorage.setItem`: throws a quota error when the store
is full, otherwise overwrites the slot. -/
def setItem (st : LocalStore) (k v : Str) : Except Str LocalStore :=
  if st.quotaFull then .error (strOf "QuotaExceededError")
  else .ok { st with slots := (k, v) :: st.slots.filter (fun p => !(p.1 == k)) }

/-- `loadFromLocalStorage` (storage.ts lines 63 to 72).  The surrounding
try/catch turns the only possible failure, a `JSON.parse` throw, into
`none`; `validateData` and `getItem` never throw.  `now` stands for the
clock reading used by `validateData`. -/
def loadFromLocalStorage (now : Str) (st : LocalStore) : Option AppData :=
  match getItem st LOCAL_STORAGE_KEY with
  | none => none
  | some stored =>
    if stored.isEmpty then none
    else
      match jsonParse stored with
      | .error _ => none
      | .ok v => some (validateData now v)

/-- What the caller of `saveToLocalStorage` observes: either a normal
completed save, or a normal return after the catch block showed a
user-facing alert. -/
inductive SaveOutcome where
  | saved : SaveOutcome
  | alertShown : Str → SaveOutcome
  deriving DecidableEq

def quotaWarning : Str := strOf "Warning: Local storage full. Some data may not be saved."

/-- `saveToLocalStorage` (storage.ts lines 74 to 81): the write is
attempted; on a quota rejection the catch block logs, alerts the user and
returns normally.  No failure ever propagates to the caller, which is why
the return type carries no error case. -/
def saveToLocalStorage (st : LocalStore) (data : AppData) : LocalStore × SaveOutcome :=
  match setItem st LOCAL_STORAGE_KEY (jsonStringify (appDataJson data)) with
  | .ok st2 => (st2, .saved)
  | .error _ => (st, .alertShown quotaWarning)

/-! ## File Backend (storage.ts lines 51 to 133) -/

/-- Modelled from the spec: `INITIAL_CLIENTS` lives in `constants.tsx`,
which is not part of the provided sources; the spec says only that a new
database is pre-seeded with a small demo contact list whose exact content
is out of scope.  One representative demo entry is used. -/
def INITIAL_CLIENTS : List JsValue :=
  [.obj [(strOf "name", .str (strOf "Demo Contact"))]]

/-- `createNewDatabase` (storage.ts lines 51 to 57). -/
def createNewDatabase (now : Str) : AppData :=
  { clients := INITIAL_CLIENTS, profile := .null, lastUpdated := .str now }

/-- Opaque handle returned by the platform file pickers. -/
structure FileHandle where
  id : Nat
  deriving DecidableEq

/-- Observable platform effects of the File Backend, in order. -/
inductive FsEvent where
  | promptOpen : FsEvent
  | promptSave : FsEvent
  | readFile : FsEvent
  | writeFile : Str → FsEvent
  deriving DecidableEq

def notSupportedMsg : Str := strOf "NOT_SUPPORTED"

/-- `openDatabaseFile` (storage.ts lines 85 to 104).  `hasOpenPicker`
models the presence of `window.showOpenFilePicker`; `pick` models the
outcome of the picker interaction together with the text of the chosen
file (an error models user abort or an unreadable file); `now` is the
clock reading used by `validateData`.  The second component is the trace
of platform effects that actually happened. -/
def openDatabaseFile (hasOpenPicker : Bool) (pick : Except Str (FileHandle × Str))
    (now : Str) : Except Str (AppData × FileHandle) × List FsEvent :=
  if !hasOpenPicker then (.error notSupportedMsg, [])
  else
    match pick with
    | .error e => (.error e, [.promptOpen])
    | .ok (handle, text) =>
      match jsonParse text with
      | .error e => (.error e, [.promptOpen, .readFile])
      | .ok json => (.ok (validateData now json, handle), [.promptOpen, .readFile])

/-- `createDatabaseFile` (storage.ts lines 106 to 127).  `hasSavePicker`
models the presence of `window.showSaveFilePicker`; `pick` the picker
outcome. -/
def createDatabaseFile (hasSavePicker : Bool) (pick : Except Str FileHandle)
    (now : Str) : Except Str (AppData × FileHandle) × List FsEvent :=
  if !hasSavePicker then (.error notSupportedMsg, [])
  else
    match pick with
    | .error e => (.error e, [.promptSave])
    | .ok handle =>
      let data := createNewDatabase now
      (.ok (data, handle), [.promptSave, .writeFile (jsonStringify (appDataJson data))])

/-! ## The Contact model (types.ts lines 36 to 67)

TypeScript string enums are plain strings at runtime, and the CSV import
stores unchecked cell text into the enum-typed fields, so `status`,
`sector` and `continent` are modelled as strings with named constants for
the enum members the persistence layer mentions.  `lat` and `lng` are
JavaScript numbers never inspected by this layer; they are modelled as
rationals. -/

def ClientStatus.NEW : Str := strOf "New"

def IndustrySector.OTHER : Str := strOf "Other"

def Continent.NORTH_AMERICA : Str := strOf "North America"

structure ContactLog where
  id : Str
  date : Str
  type : Str
  notes : Str
  deriving DecidableEq

structure Client where
  id : Str
  name : Str
  company : Str
  role : Str
  email : Str
  phone : Option Str
  sector : Str
  status : Str
  statusUpdatedAt : Option Str
  location : Option Str
  continent : Str
  lat : Option Rat
  lng : Option Rat
  website : Option Str
  lastContactDate : Option Str
  nextFollowUpDate : Option Str
  rate : Option Str
  notes : Str
  tags : List Str
  logs : List ContactLog
  deriving DecidableEq

/-! ## CSV export (storage.ts lines 137 to 181) -/

/-- The fixed export header cells (storage.ts lines 139 to 143). -/
def csvHeaders : List Str :=
  [strOf "Name", strOf "Company", strOf "Role", strOf "Status", strOf "Sector",
   strOf "Email", strOf "Phone", strOf "Location", strOf "Last Contact",
   strOf "Next Follow Up", strOf "Rate", strOf "Notes", strOf "Tags"]

/-- Double every quote character (the replace inside `esc`). -/
def escQuotes (t : Str) : Str :=
  t.flatMap fun c => if c = '"' then ['"', '"'] else [c]

/-- The `esc` helper (storage.ts lines 146 to 149): a falsy field becomes
an empty quoted string, otherwise the text is quoted with inner quotes
doubled. -/
def esc (t : Str) : Str :=
  if t.isEmpty then ['"', '"'] else '"' :: escQuotes t ++ ['"']

/-- An absent optional string field reaches `esc` as `undefined`, which
`esc` treats exactly like the empty string. -/
def optStr (o : Option Str) : Str := o.getD []

/-- Model of `new Date(s).toLocaleDateString()`: the locale rendering of
the day for a parsable timestamp, the text `Invalid Date` otherwise
(`toLocaleDateString` does not throw on an Invalid Date). -/
def jsLocaleDateString (s : Str) : Str :=
  match jsParseDate s with
  | some ms => localeDateOf ms
  | none => strOf "Invalid Date"

/-- The date cell of an exported row (storage.ts lines 160 and 161):
a truthy date field is rendered as a locale date, otherwise the cell is
the empty string. -/
def dateCell (o : Option Str) : Str :=
  match o with
  | none => []
  | some s => if s.isEmpty then [] else jsLocaleDateString s

/-- The thirteen raw cell values of one exported contact, in header order
(storage.ts lines 151 to 165). -/
def clientCells (c : Client) : List Str :=
  [c.name, c.company, c.role, c.status, c.sector, c.email,
   optStr c.phone, optStr c.location,
   dateCell c.lastContactDate, dateCell c.nextFollowUpDate,
   optStr c.rate, c.notes, joinWith (strOf ", ") c.tags]

/-- One exported data row: the escaped cells joined with commas. -/
def rowOf (c : Client) : Str := joinWith [','] ((clientCells c).map esc)

/-- `exportToCSV` (storage.ts lines 137 to 181), modelled as the CSV text
handed to the download blob: the header line and one row per contact,
joined with newlines. -/
def exportToCSV (clients : List Client) : Str :=
  joinWith ['\n'] (joinWith [','] csvHeaders :: clients.map rowOf)

/-! ## CSV import (storage.ts lines 183 to 256) -/

/-- The quote-aware field splitter `splitCSVLine` (storage.ts lines 188 to
210), as a recursion over the remaining characters, the current field and
the in-quotes flag.  A doubled quote contributes one literal quote (in any
state, as in the source); a single quote toggles the flag; a comma outside
quotes ends the field. -/
def splitAux : Str → Str → Bool → List Str
  | [], cur, _ => [cur]
  | c :: rest, cur, inQ =>
    if c = '"' then
      match rest with
      | c2 :: rest2 =>
        if c2 = '"' then splitAux rest2 (cur ++ ['"']) inQ
        else splitAux (c2 :: rest2) cur (!inQ)
      | [] => splitAux [] cur (!inQ)
    else if c = ',' ∧ inQ = false then cur :: splitAux rest [] inQ
    else splitAux rest (cur ++ [c]) inQ

def splitCSVLine (line : Str) : List Str := splitAux line [] false

/-- The `val` helper (storage.ts lines 224 to 227): the first header whose
text contains the keyword selects the column; a missing keyword, like an
index beyond the row, yields the empty string.  (The source distinguishes
`undefined` from the empty string for an index beyond the row; both are
falsy and no claim observes the difference, so both are the empty string
here.) -/
def rowVal (headers values : List Str) (keyPart : Str) : Str :=
  match headers.findIdx? (fun h => containsSub h keyPart) with
  | some i => trimStr (values.getD i [])
  | none => []

/-- The date conversion on import (storage.ts lines 244 and 245):
an empty cell gives an absent date; a parsable cell is re-serialized with
`toISOString`; an unparsable non-empty cell makes `toISOString` throw a
`RangeError` on the Invalid Date. -/
def importDateCell (cell : Str) : Except Str (Option Str) :=
  if cell.isEmpty then .ok none
  else
    match jsParseDate cell with
    | some ms => .ok (some (isoOf ms))
    | none => .error invalidTimeMsg

/-- Model of `crypto.randomUUID`: the k-th freshly minted identifier. -/
def randomUUID (k : Nat) : Str := strOf "uuid-" ++ natToStr k

/-- The tags cell conversion (storage.ts line 248): split on commas, trim,
drop empties; an empty cell gives no tags. -/
def parseTags (cell : Str) : List Str :=
  if cell.isEmpty then []
  else ((splitOnChar ',' cell).map trimStr).filter (fun t => !t.isEmpty)

/-- The loop body for one data row after the length check (storage.ts
lines 224 to 252): a blank name skips the row, otherwise the contact is
built; the result is an error when a date cell throws. `k` counts the
contacts already built, indexing the fresh identifier. -/
def parseRowCore (headers : List Str) (k : Nat) (values : List Str) :
    Except Str (Option Client) :=
  let name := rowVal headers values (strOf "name")
  let company := rowVal headers values (strOf "company")
  if name.isEmpty then .ok none
  else
    match importDateCell (rowVal headers values (strOf "last contact")) with
    | .error e => .error e
    | .ok lastD =>
      match importDateCell (rowVal headers values (strOf "next follow")) with
      | .error e => .error e
      | .ok nextD =>
        .ok (some
          { id := randomUUID k
            name := name
            company := if company.isEmpty then strOf "Unknown" else company
            role := rowVal headers values (strOf "role")
            status :=
              if (rowVal headers values (strOf "status")).isEmpty then ClientStatus.NEW
              else rowVal headers values (strOf "status")
            sector :=
              if (rowVal headers values (strOf "sector")).isEmpty then IndustrySector.OTHER
              else rowVal headers values (strOf "sector")
            email := rowVal headers values (strOf "email")
            phone := some (rowVal headers values (strOf "phone"))
            location := some (rowVal headers values (strOf "location"))
            continent := Continent.NORTH_AMERICA
            statusUpdatedAt := none
            lat := none
            lng := none
            website := none
            lastContactDate := lastD
            nextFollowUpDate := nextD
            rate := some (rowVal headers values (strOf "rate"))
            notes := rowVal headers values (strOf "notes")
            tags := parseTags (rowVal headers values (strOf "tags"))
            logs := [] })

/-- The row loop (storage.ts lines 215 to 253): trim the line, skip empty
lines and lines with fewer than two parsed fields, thread the fresh-id
counter through the built contacts, and abort the whole import on the
first thrown error. -/
def parseRows (headers : List Str) (k : Nat) : List Str → Except Str (List Client)
  | [] => .ok []
  | l :: rest =>
    let line := trimStr l
    if line.isEmpty then parseRows headers k rest
    else
      let values := splitCSVLine line
      if values.length < 2 then parseRows headers k rest
      else
        match parseRowCore headers k values with
        | .error e => .error e
        | .ok none => parseRows headers k rest
        | .ok (some c) =>
          match parseRows headers (k + 1) rest with
          | .error e => .error e
          | .ok cs => .ok (c :: cs)

/-- `parseCSV` (storage.ts lines 183 to 256). -/
def parseCSV (csvText : Str) : Except Str (List Client) :=
  let lines := splitLines csvText
  if lines.length < 2 then .ok []
  else
    let headers := (splitCSVLine (lines.headD [])).map fun h => lowerStr (trimStr h)
    parseRows headers 0 (lines.drop 1)

/-! ## The two state-controller handlers -/

/-- The shape of the modal form state that `handleAddLog` reads and
writes (src/unnamed/part_001 lines 73 to 99); the remaining form fields
are carried through the spread unchanged and are not modelled. -/
structure FormState where
  logs : List ContactLog
  lastContactDate : Option Str
  deriving DecidableEq

/-- The new-log sub-form state. -/
structure NewLog where
  date : Str
  type : Str
  notes : Str
  deriving DecidableEq

/-- `handleAddLog` (src/unnamed/part_001 lines 73 to 99): refuse an empty
note; build the entry with a fresh id and the note date re-serialized with
`toISOString` (which throws on an unparsable date); prepend the entry to
the logs; advance `lastContactDate` when it is falsy or strictly older
than the entry date. -/
def handleAddLog (uuid : Str) (newLog : NewLog) (prev : FormState) :
    Except Str FormState :=
  if newLog.notes.isEmpty then .ok prev
  else
    match jsParseDate newLog.date with
    | none => .error invalidTimeMsg
    | some ms =>
      let logEntry : ContactLog :=
        { id := uuid, date := isoOf ms, type := newLog.type, notes := newLog.notes }
      .ok
        { logs := logEntry :: prev.logs
          lastContactDate :=
            if prev.lastContactDate.getD [] |>.isEmpty then some logEntry.date
            else if jsDateGt logEntry.date (prev.lastContactDate.getD []) then
              some logEntry.date
            else prev.lastContactDate }

/-- `handleSaveClient` (src/unnamed/part_005 lines 222 to 234), restricted
to the pure list update it performs on the contact list: replace by id if
the id is found, otherwise append. -/
def handleSaveClient (clients : List Client) (client : Client) : List Client :=
  match clients.find? (fun c => c.id == client.id) with
  | some _ => clients.map fun c => if c.id == client.id then client else c
  | none => clients ++ [client]

/-! ## Cleanliness predicates and the import image, for the round-trip claim -/

/-- A piece of text free of line breaks (and carriage returns). -/
def lineClean (s : Str) : Prop := ∀ c ∈ s, c ≠ '\n' ∧ c ≠ '\r'

/-- A field whose export round-trips through the splitter: it holds at
least one character that is not a double quote.  (The empty field and the
all-quotes fields are exactly the ones the splitter corrupts, turning the
empty field into one double quote and a field of k quotes into k+1.) -/
def goodCell (f : Str) : Prop := ∃ c ∈ f, c ≠ '"'

/-- A field value that survives the export/import cycle unchanged: it has
a character besides a double quote (so the splitter recovers it), no line
breaks (the line split happens before quote handling), and no surrounding
whitespace (the import trims every cell). -/
def goodField (f : Str) : Prop := goodCell f ∧ trimStr f = f ∧ lineClean f

/-- A tag that survives the cycle: a good field with no commas (tags are
joined and re-split on commas). -/
def goodTag (t : Str) : Prop := goodField t ∧ ',' ∉ t

instance (s : Str) : Decidable (lineClean s) := by
  unfold lineClean
  infer_instance

instance (f : Str) : Decidable (goodCell f) := by
  unfold goodCell
  infer_instance

instance (f : Str) : Decidable (goodField f) := by
  unfold goodField
  infer_instance

instance (t : Str) : Decidable (goodTag t) := by
  unfold goodTag
  infer_instance

/-- Contacts whose listed fields the CSV cycle preserves: the string
fields are good and present, both dates are present valid timestamps, and
the tag list is a nonempty list of good tags. -/
def CleanClient (c : Client) : Prop :=
  goodField c.name ∧ goodField c.company ∧ goodField c.role ∧ goodField c.status ∧
  goodField c.sector ∧ goodField c.email ∧
  (∃ p, c.phone = some p ∧ goodField p) ∧
  (∃ l, c.location = some l ∧ goodField l) ∧
  (∃ r, c.rate = some r ∧ goodField r) ∧
  goodField c.notes ∧
  (∃ ms, c.lastContactDate = some (isoOf ms)) ∧
  (∃ ms, c.nextFollowUpDate = some (isoOf ms)) ∧
  c.tags ≠ [] ∧ (∀ t ∈ c.tags, goodTag t)

/-- What the CSV cycle actually produces for the k-th clean contact: the
listed fields are preserved, the id is the k-th freshly minted identifier,
the logs are emptied, the continent is forced to the default, the fields
the interchange format lacks are absent, and the dates are floored to
midnight of their day. -/
def importImage (k : Nat) (c : Client) : Client :=
  { id := randomUUID k
    name := c.name
    company := c.company
    role := c.role
    status := c.status
    sector := c.sector
    email := c.email
    phone := some (optStr c.phone)
    location := some (optStr c.location)
    continent := Continent.NORTH_AMERICA
    statusUpdatedAt := none
    lat := none
    lng := none
    website := none
    lastContactDate :=
      c.lastContactDate.bind fun s =>
        (jsParseDate s).map fun ms => isoOf (ms / msPerDay * msPerDay)
    nextFollowUpDate :=
      c.nextFollowUpDate.bind fun s =>
        (jsParseDate s).map fun ms => isoOf (ms / msPerDay * msPerDay)
    rate := some (optStr c.rate)
    notes := c.notes
    tags := c.tags
    logs := [] }

/-- The import image of a whole list, threading the fresh-id counter. -/
def importList (k : Nat) : List Client → List Client
  | [] => []
  | c :: cs => importImage k c :: importList (k + 1) cs

/-! ## Inputs used by the claim witnesses and counterexamples -/

/-- Input showing the profile pass-through: `clients` is a sequence, and
`profile` is a present, truthy, but not object-like value. -/
def c2Input : JsValue :=
  .obj [(strOf "clients", .arr []), (strOf "profile", .str (strOf "x"))]

/-- A store whose next write is rejected (per-origin capacity exceeded). -/
def fullStore : LocalStore := { slots := [], quotaFull := true }

/-- Stores exercising the three branches of the load contract: an empty
store, a store holding text that is not JSON, and a store holding the
JSON text of an empty object. -/
def emptyStore : LocalStore := { slots := [], quotaFull := false }

def corruptStore : LocalStore :=
  { slots := [(LOCAL_STORAGE_KEY, strOf "not json")], quotaFull := false }

def okStore : LocalStore :=
  { slots := [(LOCAL_STORAGE_KEY, strOf "\x7b\x7d")], quotaFull := false }

/-- Contacts used by the C10 witness. -/
def c10A : Client :=
  { id := strOf "idA", name := strOf "A", company := strOf "CoA", role := [], email := [],
    phone := none, sector := strOf "Other", status := strOf "New", statusUpdatedAt := none,
    location := none, continent := strOf "Europe", lat := none, lng := none, website := none,
    lastContactDate := none, nextFollowUpDate := none, rate := none, notes := [], tags := [],
    logs := [] }

def c10B : Client := { c10A with id := strOf "idB", name := strOf "B" }

def c10B2 : Client := { c10A with id := strOf "idB", name := strOf "B2" }

def c10C : Client := { c10A with id := strOf "idC", name := strOf "C" }

/-- The contact built by the C7 witness row: a name, no company cell. -/
def c7client : Client :=
  { id := randomUUID 0, name := strOf "Ana", company := strOf "Unknown", role := [],
    status := ClientStatus.NEW, sector := IndustrySector.OTHER, email := [],
    phone := some [], location := some [], continent := Continent.NORTH_AMERICA,
    statusUpdatedAt := none, lat := none, lng := none, website := none,
    lastContactDate := none, nextFollowUpDate := none, rate := some [], notes := [],
    tags := [], logs := [] }

/-- The thirteen export headers as the import sees them: split on commas,
trimmed, lowercased. -/
def csvHeadersLower : List Str :=
  [strOf "name", strOf "company", strOf "role", strOf "status", strOf "sector",
   strOf "email", strOf "phone", strOf "location", strOf "last contact",
   strOf "next follow up", strOf "rate", strOf "notes", strOf "tags"]

/-- A typical contact with no last-contact date, for the C1 counterexample:
its date cell exports as an empty quoted string, which the import splitter
mis-reads as one double-quote character, and the date conversion then
throws on that unparsable text. -/
def c1NoDate : Client :=
  { id := strOf "old-id", name := strOf "Ana", company := strOf "Acme",
    role := strOf "VFX", email := strOf "a@b.c", phone := some (strOf "555"),
    sector := strOf "Animation", status := strOf "Active", statusUpdatedAt := none,
    location := some (strOf "Lima"), continent := strOf "Europe", lat := none,
    lng := none, website := none, lastContactDate := none, nextFollowUpDate := none,
    rate := some (strOf "500"), notes := strOf "n", tags := [strOf "Nuke"], logs := [] }

/-- A clean contact exercising the amended C1 round trip, including an
embedded comma, a doubled quote, two tags and both dates. -/
def c1Clean : Client :=
  { id := strOf "old-id", name := strOf "Ana", company := strOf "Foo, Inc.",
    role := strOf "VFX", email := strOf "a@b.c", phone := some (strOf "555"),
    sector := strOf "Animation", status := strOf "Active",
    statusUpdatedAt := some (strOf "x"), location := some (strOf "Lima"),
    continent := strOf "Europe", lat := none, lng := none,
    website := some (strOf "w"),
    lastContactDate := some (isoOf (2 * msPerDay + 5)),
    nextFollowUpDate := some (isoOf (3 * msPerDay)),
    rate := some (strOf "500"), notes := strOf "no\"tes",
    tags := [strOf "Nuke", strOf "Pipeline"],
    logs := [{ id := strOf "l", date := strOf "d", type := strOf "Email",
               notes := strOf "n" }] }

/-! ## Arithmetic facts about the decimal rendering and the date model -/

theorem charDigit_digitChar (d : Nat) (h : d < 10) : charDigit (digitChar d) = some d := by
  interval_cases d <;> decide

theorem natDigitsAux_lt10 (f : Nat) : ∀ n, n < f → ∀ d ∈ natDigitsAux f n, d < 10 := by
  induction f with
  | zero => intro n hn; omega
  | succ f ih =>
    intro n _ d hd
    unfold natDigitsAux at hd
    by_cases h10 : n < 10
    · simp [h10] at hd
      omega
    · simp [h10] at hd
      rcases hd with hd | hd
      · exact ih (n / 10) (by omega) d hd
      · omega

theorem natDigitsAux_ne_nil (f : Nat) : ∀ n, n < f → natDigitsAux f n ≠ [] := by
  induction f with
  | zero => intro n hn; omega
  | succ f ih =>
    intro n _
    unfold natDigitsAux
    by_cases h10 : n < 10
    · simp [h10]
    · simp [h10]

theorem natDigitsAux_foldl (f : Nat) :
    ∀ n a, n < f →
      (natDigitsAux f n).foldl (fun x d => x * 10 + d) a =
        a * 10 ^ (natDigitsAux f n).length + n := by
  induction f with
  | zero => intro n a hn; omega
  | succ f ih =>
    intro n a hn
    unfold natDigitsAux
    by_cases h10 : n < 10
    · simp [h10]
    · have hdiv : n / 10 < f := by omega
      have hfold := ih (n / 10) a hdiv
      simp only [h10, if_false, List.foldl_append, List.foldl_cons, List.foldl_nil,
        List.length_append, List.length_cons, List.length_nil, hfold]
      have : a * 10 ^ ((natDigitsAux f (n / 10)).length + (0 + 1)) =
          a * 10 ^ (natDigitsAux f (n / 10)).length * 10 := by
        rw [pow_succ]
        ring
      rw [this]
      have hmod := Nat.div_add_mod n 10
      ring_nf
      omega

/-- The digit-wise fold of the rendered digits computes the numeric fold. -/
theorem foldl_map_digitChar (ds : List Nat) (hds : ∀ d ∈ ds, d < 10) :
    ∀ a, (ds.map digitChar).foldl
        (fun acc c =>
          match acc, charDigit c with
          | some a, some d => some (a * 10 + d)
          | _, _ => none) (some a) =
      some (ds.foldl (fun x d => x * 10 + d) a) := by
  induction ds with
  | nil => intro a; rfl
  | cons d t ih =>
    intro a
    have hd : charDigit (digitChar d) = some d := charDigit_digitChar d (hds d (by simp))
    simp only [List.map_cons, List.foldl_cons, hd]
    exact ih (fun x hx => hds x (by simp [hx])) (a * 10 + d)

/-- Parsing inverts the decimal rendering. -/
theorem parseNat_natToStr (n : Nat) : parseNat (natToStr n) = some n := by
  have hlt : n < n + 1 := Nat.lt_succ_self n
  have hne : natDigits n ≠ [] := natDigitsAux_ne_nil (n + 1) n hlt
  have hmapne : natToStr n ≠ [] := by
    unfold natToStr
    simp [hne]
  obtain ⟨c, cs, hcc⟩ := List.exists_cons_of_ne_nil hmapne
  have hfold := foldl_map_digitChar (natDigits n) (natDigitsAux_lt10 (n + 1) n hlt) 0
  have hval : (natDigits n).foldl (fun x d => x * 10 + d) 0 = n := by
    have := natDigitsAux_foldl (n + 1) n 0 hlt
    simpa using this
  have hparse : parseNat (natToStr n) = (natToStr n).foldl
      (fun acc c =>
        match acc, charDigit c with
        | some a, some d => some (a * 10 + d)
        | _, _ => none) (some 0) := by
    rw [hcc]
    rfl
  rw [hparse]
  unfold natToStr
  rw [hfold, hval]

theorem strOf_iso : strOf "iso:" = ['i', 's', 'o', ':'] := rfl

theorem strOf_date : strOf "date:" = ['d', 'a', 't', 'e', ':'] := rfl

/-- Parsing inverts the full-timestamp rendering. -/
theorem jsParseDate_isoOf (ms : Nat) : jsParseDate (isoOf ms) = some ms := by
  unfold jsParseDate isoOf
  rw [strOf_iso]
  have hp : List.isPrefixOf ['i', 's', 'o', ':'] (['i', 's', 'o', ':'] ++ natToStr ms) = true := by
    simp [List.isPrefixOf]
  rw [hp]
  simp only [if_true, List.drop_append_of_le_length, List.length_cons]
  have hdrop : (['i', 's', 'o', ':'] ++ natToStr ms).drop 4 = natToStr ms := rfl
  rw [hdrop, parseNat_natToStr]

/-- Parsing the locale date string yields midnight of the same day. -/
theorem jsParseDate_localeDateOf (ms : Nat) :
    jsParseDate (localeDateOf ms) = some (ms / msPerDay * msPerDay) := by
  unfold jsParseDate localeDateOf
  rw [strOf_date]
  have hiso : List.isPrefixOf (strOf "iso:") (['d', 'a', 't', 'e', ':'] ++ natToStr (ms / msPerDay)) = false := by
    rw [strOf_iso]
    simp [List.isPrefixOf]
  have hdate : List.isPrefixOf ['d', 'a', 't', 'e', ':'] (['d', 'a', 't', 'e', ':'] ++ natToStr (ms / msPerDay)) = true := by
    simp [List.isPrefixOf]
  rw [hiso, hdate]
  have hdrop : (['d', 'a', 't', 'e', ':'] ++ natToStr (ms / msPerDay)).drop 5 = natToStr (ms / msPerDay) := rfl
  simp only [if_true, Bool.false_eq_true, if_false, hdrop, parseNat_natToStr]
  rfl

theorem jsParseDate_nil : jsParseDate [] = none := rfl

/-! ## C2: the Validator -/


/-- C2 counterexample: the claim says the profile member of the result is
the raw profile only when that value is present and object-like, and none
otherwise; but the code keeps any truthy profile, so the string `x`
(present, truthy, not object-like) passes through instead of becoming
none. -/
theorem validateData_passes_nonobject_profile :
    (validateData (strOf "T") c2Input).profile = .str (strOf "x")
    ∧ (JsValue.str (strOf "x")).objectLike = false
    ∧ (validateData (strOf "T") c2Input).profile ≠ .null := by
  refine ⟨rfl, rfl, fun h => ?_⟩
  exact JsValue.noConfusion h

/-- C2 amended: `validate` never throws (it is a total function); absent,
non-object, or sequence-less input yields the zero-value Document; for
structurally valid input, `clients` passes through unchanged, while
`profile` and `lastUpdated` pass through when truthy (not merely when
present and object-like) and fall back to none resp. the current time
otherwise; the three example inputs all yield the zero-value Document. -/
theorem validateData_total_spec (now : Str) (data : JsValue) :
    (data.truthy = false ∨ (data.member (strOf "clients")).isArray = false →
        validateData now data = zeroAppData now)
    ∧ (data.truthy = true → (data.member (strOf "clients")).isArray = true →
        validateData now data =
          { clients := (data.member (strOf "clients")).elems
            profile :=
              if (data.member (strOf "profile")).truthy then data.member (strOf "profile")
              else .null
            lastUpdated :=
              if (data.member (strOf "lastUpdated")).truthy then
                data.member (strOf "lastUpdated")
              else .str now })
    ∧ validateData now .null = zeroAppData now
    ∧ validateData now (.obj []) = zeroAppData now
    ∧ validateData now (.obj [(strOf "clients", .str (strOf "not-a-list"))]) =
        zeroAppData now := by
  refine ⟨fun h => ?_, fun h1 h2 => ?_, rfl, rfl, rfl⟩
  · unfold validateData
    rcases h with h | h <;> simp [h]
  · unfold validateData
    simp [h1, h2]

/-- C2 witness. -/
theorem validateData_total_spec_witness :
    validateData (strOf "T") (.num 7) = zeroAppData (strOf "T") ∧
    validateData (strOf "T") c2Input =
      { clients := [], profile := .str (strOf "x"), lastUpdated := .str (strOf "T") } := by
  exact ⟨(validateData_total_spec (strOf "T") (.num 7)).1 (Or.inr rfl),
    ((validateData_total_spec (strOf "T") c2Input).2.1 rfl rfl).trans rfl⟩

/-! ## C3: unparsable date text on import -/

/-- C3: the spec says unparsable date text in a last-contact cell yields
an absent date rather than an error for that row, but the code calls
`toISOString` on the Invalid Date produced by `new Date`, which throws a
`RangeError` and aborts the whole import.  Concrete failing input: a
well-formed CSV whose single data row has an unparsable non-empty
last-contact cell. -/
theorem parseCSV_throws_on_unparsable_date_cell :
    parseCSV (strOf "name,company,last contact\nAna,Acme,bogus") =
      .error invalidTimeMsg := by
  rfl

/-! ## C4: quota failure in the Local Backend save -/


/-- C4 counterexample: the claim says a rejected write is surfaced to the
caller of save; but the catch block swallows the rejection, so save
returns normally to its caller with the slot unwritten, and the only
surfacing is a user-facing alert raised inside save itself. -/
theorem saveToLocalStorage_quota_not_propagated :
    saveToLocalStorage fullStore (zeroAppData (strOf "T")) =
      (fullStore, .alertShown quotaWarning) := by
  rfl

/-- C4 amended: when the store rejects the write, save catches the
failure inside itself: the slot is left unchanged, a warning alert is
shown to the user, and save returns normally — the failure is not
propagated to the caller. -/
theorem saveToLocalStorage_quota_alert (st : LocalStore) (d : AppData)
    (h : st.quotaFull = true) :
    saveToLocalStorage st d = (st, .alertShown quotaWarning) := by
  unfold saveToLocalStorage setItem
  simp [h]

/-- C4 witness. -/
theorem saveToLocalStorage_quota_alert_witness :
    saveToLocalStorage fullStore (zeroAppData (strOf "W")) =
      (fullStore, .alertShown quotaWarning) :=
  saveToLocalStorage_quota_alert fullStore (zeroAppData (strOf "W")) rfl

/-! ## C5: the Local Backend load -/

/-- C5: load returns none when the slot is absent; returns none (instead
of throwing) when the slot text fails to JSON-parse; and otherwise returns
the parse result passed through the Validator — absent and corrupt are
collapsed into the single outcome none. -/
theorem loadFromLocalStorage_collapses_absent_and_corrupt (now : Str) (st : LocalStore) :
    (getItem st LOCAL_STORAGE_KEY = none → loadFromLocalStorage now st = none)
    ∧ (∀ s e, getItem st LOCAL_STORAGE_KEY = some s → jsonParse s = .error e →
        loadFromLocalStorage now st = none)
    ∧ (∀ s v, getItem st LOCAL_STORAGE_KEY = some s → jsonParse s = .ok v →
        loadFromLocalStorage now st = some (validateData now v)) := by
  refine ⟨fun h => ?_, fun s e hs hp => ?_, fun s v hs hp => ?_⟩
  · unfold loadFromLocalStorage
    rw [h]
  · unfold loadFromLocalStorage
    rw [hs]
    by_cases he : s.isEmpty
    · simp [he]
    · simp [he, hp]
  · unfold loadFromLocalStorage
    rw [hs]
    have he : s.isEmpty = false := by
      cases s with
      | nil => rw [show jsonParse [] = .error (strOf "SyntaxError: Unexpected end of JSON input") from rfl] at hp; cases hp
      | cons c cs => rfl
    simp [he, hp]


/-- C5 witness. -/
theorem loadFromLocalStorage_collapses_absent_and_corrupt_witness :
    loadFromLocalStorage (strOf "T") emptyStore = none
    ∧ loadFromLocalStorage (strOf "T") corruptStore = none
    ∧ loadFromLocalStorage (strOf "T") okStore =
        some (validateData (strOf "T") (.obj [])) :=
  ⟨(loadFromLocalStorage_collapses_absent_and_corrupt (strOf "T") emptyStore).1 rfl,
   (loadFromLocalStorage_collapses_absent_and_corrupt (strOf "T") corruptStore).2.1
     (strOf "not json") _ rfl rfl,
   (loadFromLocalStorage_collapses_absent_and_corrupt (strOf "T") okStore).2.2
     (strOf "\x7b\x7d") (.obj []) rfl rfl⟩

/-! ## C9: missing file-picker capability -/

/-- C9: when the platform lacks the respective picker capability, both
file-backend entry points fail with the unsupported-platform error and
produce no platform effects at all — no picker prompt, no file read, no
file write. -/
theorem file_pickers_unsupported_platform (pickO : Except Str (FileHandle × Str))
    (pickS : Except Str FileHandle) (now : Str) :
    openDatabaseFile false pickO now = (.error notSupportedMsg, [])
    ∧ createDatabaseFile false pickS now = (.error notSupportedMsg, []) :=
  ⟨rfl, rfl⟩

/-! ## C10: saving a contact is replace-by-id or append -/

/-- C10: when no existing contact has the saved id, the contact is
appended at the end with the rest untouched; when exactly one existing
contact has the saved id, precisely that element is replaced in place and
every other element, and the order, is unchanged. -/
theorem handleSaveClient_replace_or_append :
    (∀ (clients : List Client) (client : Client),
      (∀ x ∈ clients, x.id ≠ client.id) →
      handleSaveClient clients client = clients ++ [client])
    ∧ (∀ (l1 : List Client) (old : Client) (l2 : List Client) (client : Client),
      old.id = client.id →
      (∀ x ∈ l1, x.id ≠ client.id) →
      (∀ x ∈ l2, x.id ≠ client.id) →
      handleSaveClient (l1 ++ old :: l2) client = l1 ++ client :: l2) := by
  constructor
  · intro clients client h
    unfold handleSaveClient
    have hf : clients.find? (fun c => c.id == client.id) = none := by
      apply List.find?_eq_none.mpr
      intro x hx
      simp [h x hx]
    rw [hf]
  · intro l1 old l2 client hold h1 h2
    unfold handleSaveClient
    have hf : (l1 ++ old :: l2).find? (fun c => c.id == client.id) = some old := by
      induction l1 with
      | nil => simp [List.find?, hold]
      | cons a t ih =>
        have ha : (a.id == client.id) = false := by
          simp [h1 a (by simp)]
        simp only [List.cons_append, List.find?, ha]
        exact ih fun x hx => h1 x (by simp [hx])
    rw [hf]
    have map_nop : ∀ (l : List Client), (∀ x ∈ l, x.id ≠ client.id) →
        l.map (fun c => if c.id == client.id then client else c) = l := by
      intro l hl
      induction l with
      | nil => rfl
      | cons a t ih =>
        have ha : (a.id == client.id) = false := by
          simpa using hl a (by simp)
        simp only [List.map_cons, ha, Bool.false_eq_true, if_false]
        rw [ih fun x hx => hl x (List.mem_cons_of_mem _ hx)]
    have hoe : (old.id == client.id) = true := by simpa using hold
    rw [List.map_append, List.map_cons, map_nop l1 h1, map_nop l2 h2, hoe]
    simp


/-- C10 witness: appending a fresh id, and replacing an existing id in
the middle of the list. -/
theorem handleSaveClient_replace_or_append_witness :
    handleSaveClient [c10A] c10B = [c10A, c10B]
    ∧ handleSaveClient [c10A, c10B, c10C] c10B2 = [c10A, c10B2, c10C] :=
  ⟨handleSaveClient_replace_or_append.1 [c10A] c10B (by decide),
   handleSaveClient_replace_or_append.2 [c10A] c10B [c10C] c10B2 (by decide)
     (by decide) (by decide)⟩


/-! ## C6: adding a log never regresses the last-contact date -/

/-- C6: adding a log entry (with a non-empty note — an empty note is
refused before anything happens — and a parsable date) prepends the entry
to the logs; when the contact has no last-contact date, or the entry date
is strictly later than it, the last-contact date becomes the entry date;
when the entry date is earlier than or equal to the current last-contact
date, the last-contact date is unchanged.  In particular it never
regresses. -/
theorem handleAddLog_advances_lastContactDate (uuid : Str) (nl : NewLog)
    (prev : FormState) (ms : Nat) (hnotes : nl.notes ≠ [])
    (hdate : jsParseDate nl.date = some ms) :
    ∃ next, handleAddLog uuid nl prev = .ok next
      ∧ next.logs =
          { id := uuid, date := isoOf ms, type := nl.type, notes := nl.notes } :: prev.logs
      ∧ (prev.lastContactDate = none → next.lastContactDate = some (isoOf ms))
      ∧ ∀ p pm, prev.lastContactDate = some p → jsParseDate p = some pm →
          (pm < ms → next.lastContactDate = some (isoOf ms))
          ∧ (ms ≤ pm → next.lastContactDate = some p) := by
  have hne : nl.notes.isEmpty = false := by
    cases h : nl.notes with
    | nil => exact absurd h hnotes
    | cons c cs => rfl
  unfold handleAddLog
  rw [hne, hdate]
  simp only [Bool.false_eq_true, if_false]
  refine ⟨_, rfl, rfl, fun hnone => ?_, fun p pm hp hpm => ?_⟩
  · simp only [hnone, Option.getD_none, List.isEmpty_nil, if_true]
  · have hpne : p ≠ [] := by
      intro hnil
      rw [hnil, jsParseDate_nil] at hpm
      cases hpm
    have hpe : p.isEmpty = false := by
      cases h : p with
      | nil => exact absurd h hpne
      | cons c cs => rfl
    have hgt : jsDateGt (isoOf ms) p = decide (ms > pm) := by
      unfold jsDateGt
      rw [jsParseDate_isoOf, hpm]
    constructor
    · intro hlt
      simp only [hp, Option.getD_some, hpe, Bool.false_eq_true, if_false, hgt]
      simp [hlt]
    · intro hle
      simp only [hp, Option.getD_some, hpe, Bool.false_eq_true, if_false, hgt]
      have : ¬ (ms > pm) := by omega
      simp [this]

/-- C6 witness: a contact with last-contact day 3 keeps it when a day-1
log is added, and advances it when a day-9 log is added. -/
theorem handleAddLog_advances_lastContactDate_witness :
    (∃ next, handleAddLog (strOf "u1")
        { date := strOf "date:1", type := strOf "Call", notes := strOf "hi" }
        { logs := [], lastContactDate := some (isoOf (3 * msPerDay)) } = .ok next
      ∧ next.logs = [{ id := strOf "u1", date := isoOf msPerDay, type := strOf "Call",
                       notes := strOf "hi" }]
      ∧ next.lastContactDate = some (isoOf (3 * msPerDay)))
    ∧ ∃ next, handleAddLog (strOf "u2")
        { date := strOf "date:9", type := strOf "Call", notes := strOf "hi" }
        { logs := [], lastContactDate := some (isoOf (3 * msPerDay)) } = .ok next
      ∧ next.lastContactDate = some (isoOf (9 * msPerDay)) := by
  constructor
  · obtain ⟨next, h1, h2, _, h4⟩ :=
      handleAddLog_advances_lastContactDate (strOf "u1")
        { date := strOf "date:1", type := strOf "Call", notes := strOf "hi" }
        { logs := [], lastContactDate := some (isoOf (3 * msPerDay)) }
        msPerDay (by decide) (by decide)
    refine ⟨next, h1, by simpa using h2, ?_⟩
    exact (h4 (isoOf (3 * msPerDay)) (3 * msPerDay) rfl (jsParseDate_isoOf _)).2 (by norm_num [msPerDay])
  · obtain ⟨next, h1, h2, _, h4⟩ :=
      handleAddLog_advances_lastContactDate (strOf "u2")
        { date := strOf "date:9", type := strOf "Call", notes := strOf "hi" }
        { logs := [], lastContactDate := some (isoOf (3 * msPerDay)) }
        (9 * msPerDay) (by decide) (by decide)
    refine ⟨next, h1, ?_⟩
    exact (h4 (isoOf (3 * msPerDay)) (3 * msPerDay) rfl (jsParseDate_isoOf _)).1 (by norm_num [msPerDay])

/-! ## C7: row skipping and the company fallback on import -/

/-- C7: a row that parses to fewer than two fields (including a blank
line) is skipped without error; a row whose name cell resolves to blank
produces no contact and no error; and a contact built from a row with a
blank company cell gets the literal company `Unknown`. -/
theorem parseCSV_row_skipping_and_company_default :
    (∀ (headers : List Str) (k : Nat) (l : Str) (rest : List Str),
      (splitCSVLine (trimStr l)).length < 2 →
      parseRows headers k (l :: rest) = parseRows headers k rest)
    ∧ (∀ (headers : List Str) (k : Nat) (values : List Str),
      rowVal headers values (strOf "name") = [] →
      parseRowCore headers k values = .ok none)
    ∧ (∀ (headers : List Str) (k : Nat) (values : List Str) (c : Client),
      parseRowCore headers k values = .ok (some c) →
      rowVal headers values (strOf "company") = [] →
      c.company = strOf "Unknown") := by
  refine ⟨fun headers k l rest hlen => ?_, fun headers k values hname => ?_,
    fun headers k values c h hc => ?_⟩
  · conv_lhs => rw [parseRows]
    by_cases he : (trimStr l).isEmpty
    · simp [he]
    · simp only [he, Bool.false_eq_true, if_false]
      simp [hlen]
  · unfold parseRowCore
    rw [hname]
    rfl
  · unfold parseRowCore at h
    by_cases hn : (rowVal headers values (strOf "name")).isEmpty
    · simp [hn] at h
    · simp only [hn, Bool.false_eq_true, if_false] at h
      cases hld : importDateCell (rowVal headers values (strOf "last contact")) with
      | error e => rw [hld] at h; cases h
      | ok lastD =>
        rw [hld] at h
        cases hnd : importDateCell (rowVal headers values (strOf "next follow")) with
        | error e => rw [hnd] at h; cases h
        | ok nextD =>
          rw [hnd] at h
          injection h with h
          injection h with h
          rw [← h]
          simp [hc]


/-- C7 witness: a one-field row is skipped, a blank-name row yields no
contact, and a missing company cell defaults to Unknown. -/
theorem parseCSV_row_skipping_and_company_default_witness :
    parseRows [] 0 [strOf "x"] = parseRows [] 0 []
    ∧ parseRowCore [strOf "name"] 0 [[]] = .ok none
    ∧ c7client.company = strOf "Unknown" :=
  ⟨parseCSV_row_skipping_and_company_default.1 [] 0 (strOf "x") [] (by decide),
   parseCSV_row_skipping_and_company_default.2.1 [strOf "name"] 0 [[]] (by decide),
   parseCSV_row_skipping_and_company_default.2.2 [strOf "name", strOf "company"] 0
     [strOf "Ana"] c7client rfl rfl⟩

/-! ## C8: reversed header order resolves to the same fields -/


/-- C8: a header line holding the thirteen standard export column names in
reversed order resolves, for a data row reversed the same way, every cell
to exactly the field it gets under the standard order: the
first-containing-header scan is order-independent for these names. -/
theorem reversed_headers_map_to_same_fields :
    ((splitCSVLine (joinWith [','] csvHeaders.reverse)).map
        (fun h => lowerStr (trimStr h)) = csvHeadersLower.reverse)
    ∧ ∀ (k : Nat) (v0 v1 v2 v3 v4 v5 v6 v7 v8 v9 v10 v11 v12 : Str),
      parseRowCore csvHeadersLower.reverse k
          [v12, v11, v10, v9, v8, v7, v6, v5, v4, v3, v2, v1, v0] =
        parseRowCore csvHeadersLower k
          [v0, v1, v2, v3, v4, v5, v6, v7, v8, v9, v10, v11, v12] := by
  refine ⟨by decide, fun k v0 v1 v2 v3 v4 v5 v6 v7 v8 v9 v10 v11 v12 => ?_⟩
  rfl

/-! ## Line-splitting lemmas for the round-trip theorem -/

theorem splitLines_cons_clean (c : Char) (t : Str) (h1 : c ≠ '\n') (h2 : c ≠ '\r') :
    splitLines (c :: t) = consHead c (splitLines t) := by
  rw [splitLines.eq_def]
  split
  · rename_i heq; cases heq
  · rename_i heq; injection heq with hh _; exact absurd hh h2
  · rename_i heq; injection heq with hh _; exact absurd hh h1
  · rename_i heq; injection heq with hh ht; rw [hh, ht]

theorem splitLines_clean (p : Str) (h : lineClean p) : splitLines p = [p] := by
  induction p with
  | nil => rfl
  | cons c t ih =>
    have hc := h c (by simp)
    rw [splitLines_cons_clean c t hc.1 hc.2,
      ih fun x hx => h x (by simp [hx])]
    rfl

theorem splitLines_append (p rest : Str) (h : lineClean p) :
    splitLines (p ++ '\n' :: rest) = p :: splitLines rest := by
  induction p with
  | nil => rfl
  | cons c t ih =>
    have hc := h c (by simp)
    rw [List.cons_append, splitLines_cons_clean c _ hc.1 hc.2,
      ih fun x hx => h x (by simp [hx])]
    rfl

theorem splitLines_joinWith :
    ∀ ls : List Str, ls ≠ [] → (∀ l ∈ ls, lineClean l) →
      splitLines (joinWith ['\n'] ls) = ls := by
  intro ls
  induction ls with
  | nil => intro h; exact absurd rfl h
  | cons l ls ih =>
    intro _ hcl
    cases ls with
    | nil => exact splitLines_clean l (hcl l (by simp))
    | cons l2 ls2 =>
      have hj : joinWith ['\n'] (l :: l2 :: ls2) = l ++ '\n' :: joinWith ['\n'] (l2 :: ls2) := by
        show l ++ ['\n'] ++ joinWith ['\n'] (l2 :: ls2) = _
        simp
      rw [hj, splitLines_append l _ (hcl l (by simp)),
        ih (List.cons_ne_nil _ _) fun x hx => hcl x (by simp [hx])]

/-! ## Field-splitting lemmas: the quote-aware splitter inverts `esc` -/

theorem splitAux_escQuotes_inQ (g : Str) :
    ∀ cur rest, rest.head? ≠ some '"' →
      splitAux (escQuotes g ++ '"' :: rest) cur true = splitAux rest (cur ++ g) false := by
  induction g with
  | nil =>
    intro cur rest hr
    cases rest with
    | nil => simp [escQuotes, splitAux]
    | cons c2 r2 =>
      have hc2 : c2 ≠ '"' := by simpa using hr
      simp only [escQuotes, List.flatMap_nil, List.nil_append, splitAux, hc2]
      simp
  | cons c t ih =>
    intro cur rest hr
    by_cases hc : c = '"'
    · subst hc
      have hesc : escQuotes ('"' :: t) = '"' :: '"' :: escQuotes t := by
        simp [escQuotes]
      rw [hesc]
      have step : splitAux ('"' :: '"' :: (escQuotes t ++ '"' :: rest)) cur true =
          splitAux (escQuotes t ++ '"' :: rest) (cur ++ ['"']) true := rfl
      rw [List.cons_append, List.cons_append, step, ih (cur ++ ['"']) rest hr]
      simp
    · have hesc : escQuotes (c :: t) = c :: escQuotes t := by
        simp [escQuotes, hc]
      rw [hesc]
      have step : splitAux (c :: (escQuotes t ++ '"' :: rest)) cur true =
          splitAux (escQuotes t ++ '"' :: rest) (cur ++ [c]) true := by
        rw [splitAux.eq_def]
        simp [hc]
      rw [List.cons_append, step, ih (cur ++ [c]) rest hr]
      simp

theorem goodCell_tail (t : Str) (hf : goodCell ('"' :: t)) : goodCell t := by
  obtain ⟨x, hx, hxq⟩ := hf
  rcases List.mem_cons.mp hx with h | h
  · exact absurd h hxq
  · exact ⟨x, h, hxq⟩

theorem goodCell_ne_nil (f : Str) (hf : goodCell f) : f ≠ [] := by
  obtain ⟨x, hx, _⟩ := hf
  intro h
  rw [h] at hx
  cases hx

theorem splitAux_esc (f : Str) (hf : goodCell f) :
    ∀ cur rest, rest.head? ≠ some '"' →
      splitAux (esc f ++ rest) cur false = splitAux rest (cur ++ f) false := by
  induction f with
  | nil =>
    obtain ⟨x, hx, _⟩ := hf
    cases hx
  | cons c t ih =>
    intro cur rest hr
    by_cases hc : c = '"'
    · subst hc
      have ht : goodCell t := goodCell_tail t hf
      have htne : t ≠ [] := goodCell_ne_nil t ht
      have hesc : esc ('"' :: t) ++ rest = '"' :: '"' :: (esc t ++ rest) := by
        have h1 : esc ('"' :: t) = '"' :: escQuotes ('"' :: t) ++ ['"'] := by
          simp [esc]
        have h2 : escQuotes ('"' :: t) = '"' :: '"' :: escQuotes t := by
          simp [escQuotes]
        have h3 : esc t = '"' :: escQuotes t ++ ['"'] := by
          simp [esc, htne]
        rw [h1, h2, h3]
        simp
      rw [hesc]
      have step : splitAux ('"' :: '"' :: (esc t ++ rest)) cur false =
          splitAux (esc t ++ rest) (cur ++ ['"']) false := rfl
      rw [step, ih ht (cur ++ ['"']) rest hr]
      simp
    · have hesc : esc (c :: t) ++ rest = '"' :: c :: (escQuotes t ++ '"' :: rest) := by
        have h1 : esc (c :: t) = '"' :: escQuotes (c :: t) ++ ['"'] := by
          simp [esc]
        have h2 : escQuotes (c :: t) = c :: escQuotes t := by
          simp [escQuotes, hc]
        rw [h1, h2]
        simp
      rw [hesc]
      have step1 : splitAux ('"' :: c :: (escQuotes t ++ '"' :: rest)) cur false =
          splitAux (c :: (escQuotes t ++ '"' :: rest)) cur true := by
        rw [splitAux.eq_def]
        simp [hc]
      have step2 : splitAux (c :: (escQuotes t ++ '"' :: rest)) cur true =
          splitAux (escQuotes t ++ '"' :: rest) (cur ++ [c]) true := by
        rw [splitAux.eq_def]
        simp [hc]
      rw [step1, step2, splitAux_escQuotes_inQ t (cur ++ [c]) rest hr]
      simp

theorem splitAux_join_esc (fs : List Str) :
    ∀ (f cur : Str), goodCell f → (∀ x ∈ fs, goodCell x) →
      splitAux (joinWith [','] ((f :: fs).map esc)) cur false = (cur ++ f) :: fs := by
  induction fs with
  | nil =>
    intro f cur hf _
    have h : joinWith [','] ([f].map esc) = esc f ++ [] := by simp [joinWith]
    rw [h, splitAux_esc f hf cur [] (by simp)]
    rfl
  | cons f2 fs2 ih =>
    intro f cur hf hgood
    have h : joinWith [','] ((f :: f2 :: fs2).map esc) =
        esc f ++ ',' :: joinWith [','] ((f2 :: fs2).map esc) := by
      show esc f ++ [','] ++ joinWith [','] ((f2 :: fs2).map esc) = _
      simp
    rw [h, splitAux_esc f hf cur _ (by simp)]
    have comma : splitAux (',' :: joinWith [','] ((f2 :: fs2).map esc)) (cur ++ f) false =
        (cur ++ f) :: splitAux (joinWith [','] ((f2 :: fs2).map esc)) [] false := by
      rw [splitAux.eq_def]
      simp
    rw [comma, ih f2 [] (hgood f2 (by simp)) fun x hx => hgood x (by simp [hx])]
    simp

theorem splitCSVLine_row (fields : List Str) (hne : fields ≠ [])
    (hgood : ∀ f ∈ fields, goodCell f) :
    splitCSVLine (joinWith [','] (fields.map esc)) = fields := by
  cases fields with
  | nil => exact absurd rfl hne
  | cons f fs =>
    unfold splitCSVLine
    rw [splitAux_join_esc fs f [] (hgood f (by simp)) fun x hx => hgood x (by simp [hx])]
    rfl

/-! ## Trim-invariance lemmas -/

theorem dropWhile_eq_self_of_all (s : Str) (h : ∀ c ∈ s, isWsChar c = false) :
    s.dropWhile isWsChar = s := by
  cases s with
  | nil => rfl
  | cons c t => simp [List.dropWhile_cons, h c (by simp)]

theorem trimStr_eq_self_of_all (s : Str) (h : ∀ c ∈ s, isWsChar c = false) :
    trimStr s = s := by
  unfold trimStr
  rw [dropWhile_eq_self_of_all s h,
    dropWhile_eq_self_of_all s.reverse (fun c hc => h c (List.mem_reverse.mp hc)),
    List.reverse_reverse]

theorem dropWhile_cons_false (c : Char) (t : Str) (h : isWsChar c = false) :
    (c :: t).dropWhile isWsChar = c :: t := by
  rw [List.dropWhile_cons, h]
  simp

theorem trimStr_eq_self_of_ends (s : Str)
    (hh : ∀ c, s.head? = some c → isWsChar c = false)
    (hl : ∀ c, s.getLast? = some c → isWsChar c = false) :
    trimStr s = s := by
  cases s with
  | nil => rfl
  | cons c t =>
    unfold trimStr
    rw [dropWhile_cons_false c t (hh c rfl)]
    obtain ⟨d, r, hdr⟩ := List.exists_cons_of_ne_nil (by simp : (c :: t).reverse ≠ [])
    have hd : isWsChar d = false := by
      apply hl
      rw [← List.head?_reverse, hdr]
      rfl
    rw [hdr, dropWhile_cons_false d r hd, ← hdr, List.reverse_reverse]

/-- A trim-invariant nonempty string does not start with whitespace. -/
theorem head_not_ws_of_trim_self (c : Char) (t : Str) (ht : trimStr (c :: t) = c :: t) :
    isWsChar c = false := by
  by_contra hws
  have hws' : isWsChar c = true := by
    cases h : isWsChar c
    · exact absurd h hws
    · rfl
  have hlen : (trimStr (c :: t)).length ≤ t.length := by
    unfold trimStr
    rw [List.length_reverse]
    calc (((c :: t).dropWhile isWsChar).reverse.dropWhile isWsChar).length
        ≤ ((c :: t).dropWhile isWsChar).reverse.length :=
          (List.dropWhile_sublist _).length_le
      _ = ((c :: t).dropWhile isWsChar).length := List.length_reverse _
      _ = (t.dropWhile isWsChar).length := by rw [List.dropWhile_cons, hws']; simp
      _ ≤ t.length := (List.dropWhile_sublist _).length_le
  rw [ht] at hlen
  simp at hlen

/-- A trim-invariant string does not end with whitespace. -/
theorem last_not_ws_of_trim_self (s : Str) (ht : trimStr s = s) :
    ∀ c r, s.reverse = c :: r → isWsChar c = false := by
  intro c r hrev
  by_contra hws
  have hws' : isWsChar c = true := by
    cases h : isWsChar c
    · exact absurd h hws
    · rfl
  have hlen_eq : ((s.dropWhile isWsChar).reverse.dropWhile isWsChar).length = s.length := by
    have hc := congrArg List.length ht
    unfold trimStr at hc
    rw [List.length_reverse] at hc
    exact hc
  have h1 : (s.dropWhile isWsChar).length = s.length := by
    have hle1 : ((s.dropWhile isWsChar).reverse.dropWhile isWsChar).length ≤
        (s.dropWhile isWsChar).reverse.length := (List.dropWhile_sublist _).length_le
    rw [List.length_reverse] at hle1
    have hle2 : (s.dropWhile isWsChar).length ≤ s.length := (List.dropWhile_sublist _).length_le
    omega
  have hu : s.dropWhile isWsChar = s :=
    (List.dropWhile_suffix isWsChar).sublist.eq_of_length h1
  rw [hu, hrev, List.dropWhile_cons, hws'] at hlen_eq
  simp at hlen_eq
  have hsl : s.length = r.length + 1 := by
    have := congrArg List.length hrev
    simpa using this
  have hle3 : (r.dropWhile isWsChar).length ≤ r.length := (List.dropWhile_sublist _).length_le
  omega

theorem trimStr_space_cons (t : Str) : trimStr (' ' :: t) = trimStr t := by
  unfold trimStr
  rw [List.dropWhile_cons, show isWsChar ' ' = true from rfl]
  simp

/-! ## Character-membership and edge lemmas for escaped rows -/

theorem mem_escQuotes (f : Str) : ∀ x ∈ escQuotes f, x = '"' ∨ x ∈ f := by
  intro x hx
  unfold escQuotes at hx
  obtain ⟨c, hc, hxc⟩ := List.mem_flatMap.mp hx
  by_cases h : c = '"'
  · rw [if_pos h] at hxc
    simp at hxc
    exact Or.inl hxc
  · rw [if_neg h] at hxc
    simp at hxc
    rw [hxc]
    exact Or.inr hc

theorem mem_esc (f : Str) : ∀ x ∈ esc f, x = '"' ∨ x ∈ f := by
  intro x hx
  unfold esc at hx
  by_cases he : f.isEmpty
  · rw [if_pos he] at hx
    simp at hx
    exact Or.inl hx
  · rw [if_neg he] at hx
    rcases List.mem_cons.mp hx with h | h
    · exact Or.inl h
    · rcases List.mem_append.mp h with h2 | h2
      · exact mem_escQuotes f x h2
      · simp at h2
        exact Or.inl h2

theorem esc_ne_nil (f : Str) : esc f ≠ [] := by
  unfold esc
  by_cases he : f.isEmpty
  · simp [he]
  · simp [he]

theorem esc_head (f : Str) : (esc f).head? = some '"' := by
  unfold esc
  by_cases he : f.isEmpty
  · simp [he]
  · simp [he]

theorem esc_getLast (f : Str) : (esc f).getLast? = some '"' := by
  unfold esc
  by_cases he : f.isEmpty
  · simp [he]
  · rw [if_neg he]
    rw [show ('"' :: escQuotes f ++ ['"']) = ('"' :: escQuotes f) ++ ['"'] from rfl]
    rw [List.getLast?_concat]

theorem mem_joinWith (sep : Str) :
    ∀ ls (x : Char), x ∈ joinWith sep ls → x ∈ sep ∨ ∃ l ∈ ls, x ∈ l := by
  intro ls
  induction ls with
  | nil => intro x hx; cases hx
  | cons l ls ih =>
    intro x hx
    cases ls with
    | nil =>
      exact Or.inr ⟨l, by simp, hx⟩
    | cons l2 ls2 =>
      have hx2 : x ∈ l ++ sep ++ joinWith sep (l2 :: ls2) := hx
      rcases List.mem_append.mp hx2 with h | h
      · rcases List.mem_append.mp h with h2 | h2
        · exact Or.inr ⟨l, by simp, h2⟩
        · exact Or.inl h2
      · rcases ih x h with h2 | ⟨l3, hl3, hxl3⟩
        · exact Or.inl h2
        · exact Or.inr ⟨l3, by simp [hl3], hxl3⟩

theorem joinWith_ne_nil (sep : Str) (l : Str) (ls : List Str) (hl : l ≠ []) :
    joinWith sep (l :: ls) ≠ [] := by
  cases ls with
  | nil => exact hl
  | cons l2 ls2 =>
    show l ++ sep ++ joinWith sep (l2 :: ls2) ≠ []
    simp [hl]

theorem joinWith_head (sep : Str) (l : Str) (ls : List Str) (hl : l ≠ []) :
    (joinWith sep (l :: ls)).head? = l.head? := by
  cases ls with
  | nil => rfl
  | cons l2 ls2 =>
    show (l ++ sep ++ joinWith sep (l2 :: ls2)).head? = l.head?
    cases l with
    | nil => exact absurd rfl hl
    | cons c t => rfl

theorem joinWith_getLast (sep : Str) :
    ∀ (ls : List Str) (l : Str), (∀ x ∈ l :: ls, x ≠ []) →
      (joinWith sep (l :: ls)).getLast? = (ls.getLastD l).getLast? := by
  intro ls
  induction ls with
  | nil => intro l _; rfl
  | cons l2 ls2 ih =>
    intro l hne
    show (l ++ sep ++ joinWith sep (l2 :: ls2)).getLast? = _
    rw [List.getLast?_append_of_ne_nil _
      (joinWith_ne_nil sep l2 ls2 (hne l2 (by simp)))]
    rw [ih l2 fun x hx => hne x (by simp [List.mem_cons.mp hx])]
    rw [List.getLastD_cons]

/-! ## Tag joining and re-splitting -/

theorem splitOnChar_not_mem (sep : Char) (s : Str) (h : sep ∉ s) :
    splitOnChar sep s = [s] := by
  induction s with
  | nil => rfl
  | cons c t ih =>
    have hc : c ≠ sep := fun he => h (by simp [he])
    have hne : ¬(c = sep) := hc
    show (if c = sep then [] :: splitOnChar sep t else consHead c (splitOnChar sep t)) = _
    rw [if_neg hne, ih fun ht => h (by simp [ht])]
    rfl

theorem splitOnChar_append (sep : Char) (p rest : Str) (h : sep ∉ p) :
    splitOnChar sep (p ++ sep :: rest) = p :: splitOnChar sep rest := by
  induction p with
  | nil =>
    show (if sep = sep then [] :: splitOnChar sep rest else _) = _
    rw [if_pos rfl]
  | cons c t ih =>
    have hc : ¬(c = sep) := fun he => h (by simp [he])
    show (if c = sep then _ else consHead c (splitOnChar sep (t ++ sep :: rest))) = _
    rw [if_neg hc, ih fun ht => h (by simp [ht])]
    rfl

theorem splitOnChar_join_tags :
    ∀ (ts : List Str) (t : Str), ',' ∉ t → (∀ x ∈ ts, ',' ∉ x) →
      splitOnChar ',' (joinWith [',', ' '] (t :: ts)) =
        t :: ts.map (fun x => ' ' :: x) := by
  intro ts
  induction ts with
  | nil => intro t ht _; exact splitOnChar_not_mem ',' t ht
  | cons t2 ts2 ih =>
    intro t ht hts
    have hj : joinWith [',', ' '] (t :: t2 :: ts2) =
        t ++ ',' :: (' ' :: joinWith [',', ' '] (t2 :: ts2)) := by
      show t ++ [',', ' '] ++ joinWith [',', ' '] (t2 :: ts2) = _
      simp
    rw [hj, splitOnChar_append ',' t _ ht]
    have hsp : splitOnChar ',' (' ' :: joinWith [',', ' '] (t2 :: ts2)) =
        consHead ' ' (splitOnChar ',' (joinWith [',', ' '] (t2 :: ts2))) := by
      show (if ' ' = ',' then _ else _) = _
      rw [if_neg (by decide)]
    rw [hsp, ih t2 (hts t2 (by simp)) fun x hx => hts x (by simp [hx])]
    rfl

theorem parseTags_join (tags : List Str) (hne : tags ≠ [])
    (hgood : ∀ t ∈ tags, goodTag t) : parseTags (joinWith (strOf ", ") tags) = tags := by
  cases tags with
  | nil => exact absurd rfl hne
  | cons t ts =>
    have hsep : strOf ", " = [',', ' '] := rfl
    have htg := hgood t (by simp)
    have htne : t ≠ [] := goodCell_ne_nil t htg.1.1
    have hjne : joinWith [',', ' '] (t :: ts) ≠ [] := joinWith_ne_nil _ t ts htne
    unfold parseTags
    rw [hsep, if_neg (by simpa [List.isEmpty_iff] using hjne)]
    rw [splitOnChar_join_tags ts t htg.2 fun x hx => (hgood x (by simp [hx])).2]
    have hmap : (t :: ts.map (fun x => ' ' :: x)).map trimStr = t :: ts := by
      rw [List.map_cons, htg.1.2.1, List.map_map]
      congr 1
      have : ∀ x ∈ ts, (trimStr ∘ fun x => ' ' :: x) x = id x := by
        intro x hx
        have hx2 := hgood x (by simp [hx])
        show trimStr (' ' :: x) = x
        rw [trimStr_space_cons, hx2.1.2.1]
      rw [List.map_congr_left this, List.map_id]
    rw [hmap]
    apply List.filter_eq_self.mpr
    intro x hx
    have hxne : x ≠ [] := goodCell_ne_nil x (hgood x hx).1.1
    simpa [List.isEmpty_iff] using hxne

/-! ## Date-cell facts -/

theorem digitChar_toNat (d : Nat) (h : d < 10) : (digitChar d).toNat = 48 + d := by
  interval_cases d <;> decide

theorem natToStr_digit_range (n : Nat) :
    ∀ c ∈ natToStr n, 48 ≤ c.toNat ∧ c.toNat ≤ 57 := by
  intro c hc
  unfold natToStr at hc
  obtain ⟨d, hd, hdc⟩ := List.mem_map.mp hc
  have hd10 : d < 10 := natDigitsAux_lt10 (n + 1) n (Nat.lt_succ_self n) d hd
  rw [← hdc, digitChar_toNat d hd10]
  omega

theorem not_ws_of_digit_range (c : Char) (h48 : 48 ≤ c.toNat) (h57 : c.toNat ≤ 57) :
    isWsChar c = false := by
  have h1 : c ≠ ' ' := fun he => by
    rw [he, show (' ' : Char).toNat = 32 from rfl] at h48; omega
  have h2 : c ≠ '\t' := fun he => by
    rw [he, show ('\t' : Char).toNat = 9 from rfl] at h48; omega
  have h3 : c ≠ '\r' := fun he => by
    rw [he, show ('\r' : Char).toNat = 13 from rfl] at h48; omega
  have h4 : c ≠ '\n' := fun he => by
    rw [he, show ('\n' : Char).toNat = 10 from rfl] at h48; omega
  simp [isWsChar, h1, h2, h3, h4]

theorem not_nlcr_of_digit_range (c : Char) (h48 : 48 ≤ c.toNat) (h57 : c.toNat ≤ 57) :
    c ≠ '\n' ∧ c ≠ '\r' :=
  ⟨fun he => by rw [he, show ('\n' : Char).toNat = 10 from rfl] at h48; omega,
   fun he => by rw [he, show ('\r' : Char).toNat = 13 from rfl] at h48; omega⟩

theorem goodField_localeDateOf (ms : Nat) : goodField (localeDateOf ms) := by
  have hshape : localeDateOf ms = 'd' :: 'a' :: 't' :: 'e' :: ':' :: natToStr (ms / msPerDay) :=
    rfl
  refine ⟨⟨'d', by rw [hshape]; simp, by decide⟩, ?_, ?_⟩
  · apply trimStr_eq_self_of_all
    intro c hc
    rw [hshape] at hc
    simp only [List.mem_cons] at hc
    rcases hc with h | h | h | h | h | h
    · rw [h]; decide
    · rw [h]; decide
    · rw [h]; decide
    · rw [h]; decide
    · rw [h]; decide
    · have := natToStr_digit_range (ms / msPerDay) c h
      exact not_ws_of_digit_range c this.1 this.2
  · intro c hc
    rw [hshape] at hc
    simp only [List.mem_cons] at hc
    rcases hc with h | h | h | h | h | h
    · rw [h]; exact ⟨by decide, by decide⟩
    · rw [h]; exact ⟨by decide, by decide⟩
    · rw [h]; exact ⟨by decide, by decide⟩
    · rw [h]; exact ⟨by decide, by decide⟩
    · rw [h]; exact ⟨by decide, by decide⟩
    · have := natToStr_digit_range (ms / msPerDay) c h
      exact not_nlcr_of_digit_range c this.1 this.2

theorem isoOf_not_empty (ms : Nat) : (isoOf ms).isEmpty = false := rfl

theorem localeDateOf_not_empty (ms : Nat) : (localeDateOf ms).isEmpty = false := rfl

theorem dateCell_iso (ms : Nat) : dateCell (some (isoOf ms)) = localeDateOf ms := by
  show (if (isoOf ms).isEmpty = true then [] else jsLocaleDateString (isoOf ms)) = _
  rw [isoOf_not_empty]
  simp only [Bool.false_eq_true, if_false]
  unfold jsLocaleDateString
  rw [jsParseDate_isoOf]

theorem importDateCell_locale (ms : Nat) :
    importDateCell (localeDateOf ms) = .ok (some (isoOf (ms / msPerDay * msPerDay))) := by
  unfold importDateCell
  rw [localeDateOf_not_empty]
  simp only [Bool.false_eq_true, if_false]
  rw [jsParseDate_localeDateOf]

/-! ## One exported row builds exactly the import image -/

theorem isEmpty_false_of_ne (s : Str) (h : s ≠ []) : s.isEmpty = false := by
  cases s with
  | nil => exact absurd rfl h
  | cons c t => rfl

theorem parseRowCore_values (k : Nat) (nm co ro st se em ph lo lc nf ra nt tg : Str)
    (dlc dnf : Option Str)
    (hnm : trimStr nm = nm) (hco : trimStr co = co) (hro : trimStr ro = ro)
    (hst : trimStr st = st) (hse : trimStr se = se) (hem : trimStr em = em)
    (hph : trimStr ph = ph) (hlo : trimStr lo = lo) (hra : trimStr ra = ra)
    (hnt : trimStr nt = nt) (htg : trimStr tg = tg)
    (hnmne : nm ≠ []) (hcone : co ≠ []) (hstne : st ≠ []) (hsene : se ≠ [])
    (hlc : importDateCell (trimStr lc) = .ok dlc)
    (hnf : importDateCell (trimStr nf) = .ok dnf) :
    parseRowCore csvHeadersLower k [nm, co, ro, st, se, em, ph, lo, lc, nf, ra, nt, tg] =
      .ok (some
        { id := randomUUID k, name := nm, company := co, role := ro, status := st,
          sector := se, email := em, phone := some ph, location := some lo,
          continent := Continent.NORTH_AMERICA, statusUpdatedAt := none, lat := none,
          lng := none, website := none, lastContactDate := dlc, nextFollowUpDate := dnf,
          rate := some ra, notes := nt, tags := parseTags tg, logs := [] }) := by
  have vals : List Str := [nm, co, ro, st, se, em, ph, lo, lc, nf, ra, nt, tg]
  have r0 : rowVal csvHeadersLower [nm, co, ro, st, se, em, ph, lo, lc, nf, ra, nt, tg]
      (strOf "name") = trimStr nm := rfl
  have r1 : rowVal csvHeadersLower [nm, co, ro, st, se, em, ph, lo, lc, nf, ra, nt, tg]
      (strOf "company") = trimStr co := rfl
  have r2 : rowVal csvHeadersLower [nm, co, ro, st, se, em, ph, lo, lc, nf, ra, nt, tg]
      (strOf "role") = trimStr ro := rfl
  have r3 : rowVal csvHeadersLower [nm, co, ro, st, se, em, ph, lo, lc, nf, ra, nt, tg]
      (strOf "status") = trimStr st := rfl
  have r4 : rowVal csvHeadersLower [nm, co, ro, st, se, em, ph, lo, lc, nf, ra, nt, tg]
      (strOf "sector") = trimStr se := rfl
  have r5 : rowVal csvHeadersLower [nm, co, ro, st, se, em, ph, lo, lc, nf, ra, nt, tg]
      (strOf "email") = trimStr em := rfl
  have r6 : rowVal csvHeadersLower [nm, co, ro, st, se, em, ph, lo, lc, nf, ra, nt, tg]
      (strOf "phone") = trimStr ph := rfl
  have r7 : rowVal csvHeadersLower [nm, co, ro, st, se, em, ph, lo, lc, nf, ra, nt, tg]
      (strOf "location") = trimStr lo := rfl
  have r8 : rowVal csvHeadersLower [nm, co, ro, st, se, em, ph, lo, lc, nf, ra, nt, tg]
      (strOf "last contact") = trimStr lc := rfl
  have r9 : rowVal csvHeadersLower [nm, co, ro, st, se, em, ph, lo, lc, nf, ra, nt, tg]
      (strOf "next follow") = trimStr nf := rfl
  have r10 : rowVal csvHeadersLower [nm, co, ro, st, se, em, ph, lo, lc, nf, ra, nt, tg]
      (strOf "rate") = trimStr ra := rfl
  have r11 : rowVal csvHeadersLower [nm, co, ro, st, se, em, ph, lo, lc, nf, ra, nt, tg]
      (strOf "notes") = trimStr nt := rfl
  have r12 : rowVal csvHeadersLower [nm, co, ro, st, se, em, ph, lo, lc, nf, ra, nt, tg]
      (strOf "tags") = trimStr tg := rfl
  unfold parseRowCore
  rw [r0, r1, r2, r3, r4, r5, r6, r7, r8, r9, r10, r11, r12]
  rw [hnm, hco, hro, hst, hse, hem, hph, hlo, hra, hnt, htg]
  dsimp only
  rw [isEmpty_false_of_ne nm hnmne, isEmpty_false_of_ne co hcone,
    isEmpty_false_of_ne st hstne, isEmpty_false_of_ne se hsene]
  rw [hlc, hnf]
  simp only [Bool.false_eq_true, if_false]

theorem head_not_ws_of_good (t : Str) (hne : t ≠ []) (ht : trimStr t = t) :
    ∀ ch, t.head? = some ch → isWsChar ch = false := by
  intro ch hch
  cases t with
  | nil => exact absurd rfl hne
  | cons c0 t0 =>
    have : c0 = ch := by injection hch
    rw [← this]
    exact head_not_ws_of_trim_self c0 t0 ht

theorem last_not_ws_of_good (t : Str) (ht : trimStr t = t) :
    ∀ ch, t.getLast? = some ch → isWsChar ch = false := by
  intro ch hch
  rw [← List.head?_reverse] at hch
  obtain ⟨r, hr⟩ : ∃ r, t.reverse = ch :: r := by
    cases h : t.reverse with
    | nil => rw [h] at hch; cases hch
    | cons d r =>
      rw [h] at hch
      injection hch with hch
      rw [← hch]
      exact ⟨r, rfl⟩
  exact last_not_ws_of_trim_self t ht ch r hr

theorem trim_tags_join (tags : List Str) (hne : tags ≠ [])
    (hgood : ∀ t ∈ tags, goodTag t) :
    trimStr (joinWith (strOf ", ") tags) = joinWith (strOf ", ") tags := by
  cases tags with
  | nil => exact absurd rfl hne
  | cons t ts =>
    have htg := hgood t (by simp)
    have htne : t ≠ [] := goodCell_ne_nil t htg.1.1
    apply trimStr_eq_self_of_ends
    · intro ch hch
      rw [joinWith_head _ t ts htne] at hch
      exact head_not_ws_of_good t htne htg.1.2.1 ch hch
    · intro ch hch
      rw [joinWith_getLast _ ts t
        (fun x hx => goodCell_ne_nil x (hgood x hx).1.1)] at hch
      have hmem : ts.getLastD t ∈ t :: ts := List.getLastD_mem_cons ts t
      exact last_not_ws_of_good _ (hgood _ hmem).1.2.1 ch hch

theorem parseRowCore_export (k : Nat) (c : Client) (h : CleanClient c) :
    parseRowCore csvHeadersLower k (clientCells c) = .ok (some (importImage k c)) := by
  obtain ⟨hn, hco, hro, hst, hse, hem, ⟨p, hp, hpg⟩, ⟨lo, hl, hlg⟩, ⟨ra, hr, hrg⟩,
    hno, ⟨ms1, hd1⟩, ⟨ms2, hd2⟩, htne, htags⟩ := h
  have hcells : clientCells c =
      [c.name, c.company, c.role, c.status, c.sector, c.email, p, lo,
       localeDateOf ms1, localeDateOf ms2, ra, c.notes, joinWith (strOf ", ") c.tags] := by
    unfold clientCells
    rw [hp, hl, hr, hd1, hd2, dateCell_iso, dateCell_iso]
    rfl
  rw [hcells]
  rw [parseRowCore_values k c.name c.company c.role c.status c.sector c.email p lo
    (localeDateOf ms1) (localeDateOf ms2) ra c.notes (joinWith (strOf ", ") c.tags)
    (some (isoOf (ms1 / msPerDay * msPerDay))) (some (isoOf (ms2 / msPerDay * msPerDay)))
    hn.2.1 hco.2.1 hro.2.1 hst.2.1 hse.2.1 hem.2.1 hpg.2.1 hlg.2.1 hrg.2.1 hno.2.1
    (trim_tags_join c.tags htne htags)
    (goodCell_ne_nil _ hn.1) (goodCell_ne_nil _ hco.1) (goodCell_ne_nil _ hst.1)
    (goodCell_ne_nil _ hse.1)
    (by rw [(goodField_localeDateOf ms1).2.1, importDateCell_locale])
    (by rw [(goodField_localeDateOf ms2).2.1, importDateCell_locale])]
  unfold importImage
  rw [hp, hl, hr, hd1, hd2, parseTags_join c.tags htne htags]
  simp [optStr, jsParseDate_isoOf]

/-! ## Row-level facts -/

theorem clientCells_good (c : Client) (h : CleanClient c) :
    ∀ f ∈ clientCells c, goodCell f := by
  obtain ⟨hn, hco, hro, hst, hse, hem, ⟨p, hp, hpg⟩, ⟨lo, hl, hlg⟩, ⟨ra, hr, hrg⟩,
    hno, ⟨ms1, hd1⟩, ⟨ms2, hd2⟩, htne, htags⟩ := h
  have hcells : clientCells c =
      [c.name, c.company, c.role, c.status, c.sector, c.email, p, lo,
       localeDateOf ms1, localeDateOf ms2, ra, c.notes, joinWith (strOf ", ") c.tags] := by
    unfold clientCells
    rw [hp, hl, hr, hd1, hd2, dateCell_iso, dateCell_iso]
    rfl
  rw [hcells]
  have hjoin : goodCell (joinWith (strOf ", ") c.tags) := by
    cases hts : c.tags with
    | nil => exact absurd hts htne
    | cons t ts =>
      have htg := htags t (by rw [hts]; simp)
      obtain ⟨ch, hch, hchq⟩ := htg.1.1
      refine ⟨ch, ?_, hchq⟩
      cases ts with
      | nil => exact hch
      | cons t2 ts2 =>
        show ch ∈ t ++ strOf ", " ++ joinWith (strOf ", ") (t2 :: ts2)
        simp [hch]
  intro f hf
  simp only [List.mem_cons] at hf
  rcases hf with h | h | h | h | h | h | h | h | h | h | h | h | h | h
  all_goals first
    | (rw [h]; first
        | exact hn.1 | exact hco.1 | exact hro.1 | exact hst.1 | exact hse.1
        | exact hem.1 | exact hpg.1 | exact hlg.1 | exact hrg.1 | exact hno.1
        | exact (goodField_localeDateOf ms1).1 | exact (goodField_localeDateOf ms2).1
        | exact hjoin)
    | cases h

theorem lineClean_tags_join (tags : List Str) (hgood : ∀ t ∈ tags, goodTag t) :
    lineClean (joinWith (strOf ", ") tags) := by
  intro x hx
  cases tags with
  | nil => cases hx
  | cons t ts =>
    rcases mem_joinWith _ (t :: ts) x hx with h | ⟨l, hl, hxl⟩
    · have h2 : x = ',' ∨ x = ' ' := by
        rw [show strOf ", " = [',', ' '] from rfl] at h
        simpa using h
      rcases h2 with h2 | h2 <;> (rw [h2]; exact ⟨by decide, by decide⟩)
    · exact (hgood l hl).1.2.2 x hxl

theorem clientCells_clean (c : Client) (h : CleanClient c) :
    ∀ f ∈ clientCells c, lineClean f := by
  obtain ⟨hn, hco, hro, hst, hse, hem, ⟨p, hp, hpg⟩, ⟨lo, hl, hlg⟩, ⟨ra, hr, hrg⟩,
    hno, ⟨ms1, hd1⟩, ⟨ms2, hd2⟩, htne, htags⟩ := h
  have hcells : clientCells c =
      [c.name, c.company, c.role, c.status, c.sector, c.email, p, lo,
       localeDateOf ms1, localeDateOf ms2, ra, c.notes, joinWith (strOf ", ") c.tags] := by
    unfold clientCells
    rw [hp, hl, hr, hd1, hd2, dateCell_iso, dateCell_iso]
    rfl
  rw [hcells]
  intro f hf
  simp only [List.mem_cons] at hf
  rcases hf with h | h | h | h | h | h | h | h | h | h | h | h | h | h
  all_goals first
    | (rw [h]; first
        | exact hn.2.2 | exact hco.2.2 | exact hro.2.2 | exact hst.2.2 | exact hse.2.2
        | exact hem.2.2 | exact hpg.2.2 | exact hlg.2.2 | exact hrg.2.2 | exact hno.2.2
        | exact (goodField_localeDateOf ms1).2.2 | exact (goodField_localeDateOf ms2).2.2
        | exact lineClean_tags_join c.tags htags)
    | cases h

theorem rowOf_clean (c : Client) (h : CleanClient c) : lineClean (rowOf c) := by
  intro x hx
  unfold rowOf at hx
  rcases mem_joinWith _ _ x hx with h1 | ⟨l, hl, hxl⟩
  · have h2 : x = ',' := by simpa using h1
    rw [h2]
    exact ⟨by decide, by decide⟩
  · obtain ⟨f, hf, hfl⟩ := List.mem_map.mp hl
    rw [← hfl] at hxl
    rcases mem_esc f x hxl with h2 | h2
    · rw [h2]; exact ⟨by decide, by decide⟩
    · exact clientCells_clean c h f hf x h2

theorem trim_join_esc (fs : List Str) (f : Str) :
    trimStr (joinWith [','] ((f :: fs).map esc)) = joinWith [','] ((f :: fs).map esc) := by
  apply trimStr_eq_self_of_ends
  · intro ch hch
    rw [List.map_cons, joinWith_head _ (esc f) _ (esc_ne_nil f), esc_head] at hch
    injection hch with hch
    rw [← hch]
    decide
  · intro ch hch
    rw [List.map_cons, joinWith_getLast _ (fs.map esc) (esc f)
      (by
        intro x hx
        rcases List.mem_cons.mp hx with h1 | h1
        · rw [h1]; exact esc_ne_nil f
        · obtain ⟨g, _, hg⟩ := List.mem_map.mp h1
          rw [← hg]; exact esc_ne_nil g)] at hch
    have hmem : (fs.map esc).getLastD (esc f) ∈ esc f :: fs.map esc :=
      List.getLastD_mem_cons (fs.map esc) (esc f)
    have hq : ((fs.map esc).getLastD (esc f)).getLast? = some '"' := by
      rcases List.mem_cons.mp hmem with h1 | h1
      · rw [h1]; exact esc_getLast f
      · obtain ⟨g, _, hg⟩ := List.mem_map.mp h1
        rw [← hg]; exact esc_getLast g
    rw [hq] at hch
    injection hch with hch
    rw [← hch]
    decide

theorem rowOf_trim (c : Client) : trimStr (rowOf c) = rowOf c :=
  trim_join_esc [c.company, c.role, c.status, c.sector, c.email,
    optStr c.phone, optStr c.location,
    dateCell c.lastContactDate, dateCell c.nextFollowUpDate,
    optStr c.rate, c.notes, joinWith (strOf ", ") c.tags] c.name

theorem rowOf_ne_nil (c : Client) : rowOf c ≠ [] :=
  joinWith_ne_nil [','] (esc c.name) _ (esc_ne_nil c.name)

theorem splitCSVLine_rowOf (c : Client) (h : CleanClient c) :
    splitCSVLine (rowOf c) = clientCells c := by
  have := splitCSVLine_row (clientCells c) (by
      show c.name :: _ ≠ []
      exact List.cons_ne_nil _ _)
    (clientCells_good c h)
  exact this

/-! ## The row loop over exported rows -/

theorem parseRows_export :
    ∀ (cs : List Client) (k : Nat), (∀ c ∈ cs, CleanClient c) →
      parseRows csvHeadersLower k (cs.map rowOf) = .ok (importList k cs) := by
  intro cs
  induction cs with
  | nil => intro k _; rfl
  | cons c cs2 ih =>
    intro k hcl
    have hc := hcl c (by simp)
    rw [List.map_cons]
    conv_lhs => rw [parseRows]
    dsimp only
    rw [rowOf_trim c, isEmpty_false_of_ne _ (rowOf_ne_nil c)]
    simp only [Bool.false_eq_true, if_false]
    rw [splitCSVLine_rowOf c hc]
    rw [if_neg (show ¬(clientCells c).length < 2 by
      rw [show (clientCells c).length = 13 from rfl]; omega)]
    rw [parseRowCore_export k c hc, ih (k + 1) fun x hx => hcl x (by simp [hx])]
    rfl

/-! ## C1: the CSV round trip -/

/-- C1 counterexample: the claim says importing the export of any contact
sequence yields a sequence (of the same length, with the listed fields
preserved); but for a typical contact with no last-contact date
the import throws: the absent date exports as an empty quoted cell, the
splitter mis-parses that cell as one double-quote character, which is
truthy, and re-serializing it as a date throws a RangeError that aborts
the whole import. -/
theorem import_export_crashes_on_absent_date :
    parseCSV (exportToCSV [c1NoDate]) = .error invalidTimeMsg := by
  rfl

/-- C1 amended: for contact sequences whose fields are clean — every
listed string field present, trim-invariant, free of line breaks and not
consisting solely of double quotes (and name, company, status, sector
nonempty); both dates present and valid; tags a nonempty list of such
tag texts without commas — importing the export succeeds and yields one
contact per original in order, preserving name, company, role, status,
sector, email, phone, location, rate, notes and tags, while minting the
k-th fresh id for the k-th contact, emptying the logs, dropping website,
coordinates and status-updated-at, forcing continent to the North America
default, and flooring each date to midnight of its day. -/
theorem import_export_of_clean_clients (cs : List Client)
    (h : ∀ c ∈ cs, CleanClient c) :
    parseCSV (exportToCSV cs) = .ok (importList 0 cs) := by
  cases cs with
  | nil => rfl
  | cons c cs2 =>
    unfold exportToCSV parseCSV
    dsimp only
    have hlines : splitLines (joinWith ['\n']
        (joinWith [','] csvHeaders :: (c :: cs2).map rowOf)) =
        joinWith [','] csvHeaders :: (c :: cs2).map rowOf := by
      apply splitLines_joinWith _ (List.cons_ne_nil _ _)
      intro l hl
      rcases List.mem_cons.mp hl with h1 | h1
      · rw [h1]
        decide
      · obtain ⟨x, hx, hxr⟩ := List.mem_map.mp h1
        rw [← hxr]
        exact rowOf_clean x (h x hx)
    rw [hlines]
    rw [if_neg (show ¬(joinWith [','] csvHeaders :: (c :: cs2).map rowOf).length < 2 by
      simp)]
    have hhdrs : (splitCSVLine ((joinWith [','] csvHeaders :: (c :: cs2).map rowOf).headD
        [])).map (fun h => lowerStr (trimStr h)) = csvHeadersLower := by
      rw [show (joinWith [','] csvHeaders :: (c :: cs2).map rowOf).headD [] =
        joinWith [','] csvHeaders from rfl]
      decide
    rw [hhdrs]
    rw [show (joinWith [','] csvHeaders :: (c :: cs2).map rowOf).drop 1 =
      (c :: cs2).map rowOf from rfl]
    exact parseRows_export (c :: cs2) 0 h

/-- C1 witness: the amended round trip on one concrete clean contact. -/
theorem import_export_of_clean_clients_witness :
    parseCSV (exportToCSV [c1Clean]) = .ok (importList 0 [c1Clean]) :=
  import_export_of_clean_clients [c1Clean] (by
    intro c hc
    have hce : c = c1Clean := by simpa using hc
    subst hce
    exact ⟨by decide, by decide, by decide, by decide, by decide, by decide,
      ⟨strOf "555", rfl, by decide⟩, ⟨strOf "Lima", rfl, by decide⟩,
      ⟨strOf "500", rfl, by decide⟩, by decide,
      ⟨2 * msPerDay + 5, rfl⟩, ⟨3 * msPerDay, rfl⟩, by decide, by decide⟩)
